import Mathlib

/-!
Verification of the scoring-run analyzer of `dt_game_report`
(`src/dt_game_report/lab_quarters_and_runs.py`).

The development shallowly embeds the analyzer:

* `JValue` models the loosely typed JSON-ish records the Python code
  consumes; partial Python operations (attribute access on non-dicts,
  `int(...)` coercions, iteration, subscription) are modelled in the
  `Except PyErr` monad.
* `extractBasicPlaySequence` embeds `_extract_basic_play_sequence`,
  `buildTeamMaps` embeds `_build_team_maps`,
  `computeQuarterTotals` embeds `compute_quarter_team_and_player_totals`,
  and `compute_unanswered_runs` / `compute_net_runs` /
  `compute_highlight_runs` embed the three run detectors.

Theorems below settle the frozen claims about these functions.
-/

namespace DTGameReport

/-- A loosely typed JSON-like value, mirroring the Python objects the
analyzer consumes (`None`, `bool`, `int`, `str`, `list`, `dict`). -/
inductive JValue where
  | null
  | bool (b : Bool)
  | int (n : Int)
  | str (s : String)
  | arr (xs : List JValue)
  | obj (kvs : List (String × JValue))
deriving Repr, Inhabited

/-- Python exception kinds raised by the embedded operations. -/
inductive PyErr where
  | attributeError
  | typeError
  | valueError
  | keyError
  | indexError
  | runtimeError
deriving Repr, DecidableEq, Inhabited

/-- Python truthiness of a value (`bool(v)`). -/
def truthy : JValue → Bool
  | .null => false
  | .bool b => b
  | .int n => n != 0
  | .str s => s ≠ ""
  | .arr xs => !xs.isEmpty
  | .obj kvs => !kvs.isEmpty

/-- Python `a or b` (returns `a` when truthy, else `b`). -/
def pyOr (a b : JValue) : JValue := if truthy a then a else b

/-- First binding of key `k` in a dict's entry list, if any (our dicts
are built with distinct keys, first match is the binding). -/
def objGet? (kvs : List (String × JValue)) (k : String) : Option JValue :=
  match kvs with
  | [] => none
  | (k', v) :: rest => if k' = k then some v else objGet? rest k

/-- Python `d.get(k)` on an entry list: `None` when the key is absent. -/
def objGetN (kvs : List (String × JValue)) (k : String) : JValue :=
  (objGet? kvs k).getD .null

/-- Python `v.get(k)`: attribute error unless `v` is a dict. -/
def jGet (v : JValue) (k : String) : Except PyErr JValue :=
  match v with
  | .obj kvs => .ok (objGetN kvs k)
  | _ => .error .attributeError

/-- Python `v.get(k, d)`: attribute error unless `v` is a dict; the
default `d` is returned only when the key is absent. -/
def jGetD (v : JValue) (k : String) (d : JValue) : Except PyErr JValue :=
  match v with
  | .obj kvs => .ok ((objGet? kvs k).getD d)
  | _ => .error .attributeError

/-- Python `int(v)` where it succeeds: ints, bools, and numeric strings
(whitespace-trimmed); everything else is `none` (raises). -/
def toIntPy : JValue → Option Int
  | .int n => some n
  | .bool b => some (if b then 1 else 0)
  | .str s => s.trim.toInt?
  | _ => none

/-- Python iteration (`for x in v`): lists yield elements, strings yield
one-character strings, dicts yield their keys; other values raise. -/
def iterElems : JValue → Except PyErr (List JValue)
  | .arr xs => .ok xs
  | .str s => .ok (s.toList.map fun c => .str (String.mk [c]))
  | .obj kvs => .ok (kvs.map fun kv => .str kv.1)
  | _ => .error .typeError

/-- Python `v[0]`: first element of a list or first character of a
string; raises on other values (or on emptiness). -/
def pyIndex0 : JValue → Except PyErr JValue
  | .arr (x :: _) => .ok x
  | .arr [] => .error .indexError
  | .str s =>
    match s.toList with
    | c :: _ => .ok (.str (String.mk [c]))
    | [] => .error .indexError
  | .obj _ => .error .keyError
  | _ => .error .typeError

mutual

/-- Python `repr(v)` (used by `str` on containers). -/
def pyRepr : JValue → String
  | .null => "None"
  | .bool true => "True"
  | .bool false => "False"
  | .int n => toString n
  | .str s => "\x27" ++ s ++ "\x27"
  | .arr xs => "[" ++ String.intercalate ", " (pyReprList xs) ++ "]"
  | .obj kvs => "\x7b" ++ String.intercalate ", " (pyReprKVs kvs) ++ "\x7d"

/-- Reprs of the elements of a list value. -/
def pyReprList : List JValue → List String
  | [] => []
  | x :: xs => pyRepr x :: pyReprList xs

/-- Reprs of the entries of a dict value. -/
def pyReprKVs : List (String × JValue) → List String
  | [] => []
  | (k, v) :: kvs => ("\x27" ++ k ++ "\x27: " ++ pyRepr v) :: pyReprKVs kvs

end

/-- Python `str(v)`: strings unchanged, other values via their repr. -/
def pyStr : JValue → String
  | .str s => s
  | v => pyRepr v

/-- Structural boolean equality of values (Python `==` on the JSON
fragment; used for dict keys). -/
def jvEq : JValue → JValue → Bool
  | .null, .null => true
  | .bool a, .bool b => a == b
  | .int a, .int b => a == b
  | .str a, .str b => a == b
  | .arr [], .arr [] => true
  | .arr (x :: xs), .arr (y :: ys) => jvEq x y && jvEq (.arr xs) (.arr ys)
  | .obj [], .obj [] => true
  | .obj ((k1, v1) :: xs), .obj ((k2, v2) :: ys) =>
    k1 == k2 && jvEq v1 v2 && jvEq (.obj xs) (.obj ys)
  | _, _ => false
termination_by a _ => sizeOf a

/-- Association-list lookup with an explicit key comparison (Python
`dict.get`). -/
def lookupW (eqk : α → α → Bool) (l : List (α × β)) (k : α) : Option β :=
  match l with
  | [] => none
  | (k', v) :: rest => if eqk k' k then some v else lookupW eqk rest k

/-- Association-list update with an explicit key comparison (Python
`dict[k] = v`: replace the binding or append a new one). -/
def setW (eqk : α → α → Bool) (l : List (α × β)) (k : α) (v : β) :
    List (α × β) :=
  match l with
  | [] => [(k, v)]
  | (k', v') :: rest =>
    if eqk k' k then (k, v) :: rest else (k', v') :: setW eqk rest k v

/-- String-keyed dict lookup. -/
def lookupS (l : List (String × β)) (k : String) : Option β :=
  lookupW (· == ·) l k

/-- String-keyed dict update. -/
def setS (l : List (String × β)) (k : String) (v : β) : List (String × β) :=
  setW (· == ·) l k v

/-- Python `x or 0` on an int: identity except that a zero stays zero. -/
def intOrZero (n : Int) : Int := if n = 0 then 0 else n

theorem intOrZero_eq (n : Int) : intOrZero n = n := by
  unfold intOrZero; split <;> simp_all

/-- Whether `sub` matches the leading characters of `hay`. -/
def leadMatch : List Char → List Char → Bool
  | [], _ => true
  | _ :: _, [] => false
  | a :: as, b :: bs => a == b && leadMatch as bs

/-- Substring containment over character lists (the empty needle is in
every string, as in Python). -/
def containsL (sub : List Char) : List Char → Bool
  | [] => sub.isEmpty
  | h :: t => leadMatch sub (h :: t) || containsL sub t

/-- Python substring test `sub in hay`. -/
def pyInStr (sub hay : String) : Bool := containsL sub.toList hay.toList

/-- One normalized play, as produced by `_extract_basic_play_sequence`
(the dict appended to `seq`). Fields the source stores raw keep type
`JValue`; fields it coerces are typed. -/
structure Play where
  index : Nat
  period : Option Int
  clock : String
  home_score : Int
  away_score : Int
  team_id : Option String
  scoring_play : Bool
  score_value : Int
  text : JValue
  athlete_ids : List String
  play_type_id : JValue
  play_type_text : JValue
  shooting_play : Bool
  points_attempted : Int
  short_desc : JValue
deriving Repr, Inhabited

/-- Python `str(v) if v is not None else None`, the team/athlete id
coercion used by the script. -/
def tidOfRaw : JValue → Option String
  | .null => none
  | v => some (pyStr v)

/-- Python `int(period) if period is not None else None` (unprotected:
raises on a non-coercible non-None value). -/
def periodCoerce : JValue → Except PyErr (Option Int)
  | .null => pure none
  | v =>
    match toIntPy v with
    | some n => pure (some n)
    | none => .error .valueError

/-- The participants-loop body of `_extract_basic_play_sequence`:
collect an athlete id from one participant entry. -/
def collectAid (acc : List String) (part : JValue) : List String :=
  match part with
  | .obj kvs =>
    match objGetN kvs "athlete" with
    | .obj akvs =>
      match objGetN akvs "id" with
      | .null =>
        match objGetN kvs "id" with
        | .null => acc
        | aid2 => acc ++ [pyStr aid2]
      | aid => acc ++ [pyStr aid]
    | _ =>
      match objGetN kvs "id" with
      | .null => acc
      | aid2 => acc ++ [pyStr aid2]
  | _ => acc

/-- The loop body of `_extract_basic_play_sequence`: normalize one raw
play record `p` given the previous cumulative scores and position. -/
def processPlay (last_home last_away : Int) (idx : Nat) (p : JValue) :
    Except PyErr Play := do
  let periodField ← jGet p "period"
  let periodVal ← jGet (pyOr periodField (.obj [])) "number"
  let clockField ← jGet p "clock"
  let clockDV ← jGet (pyOr clockField (.obj [])) "displayValue"
  let clockV := pyOr (pyOr clockDV clockField) (.str "")
  let text := pyOr (← jGet p "text") (.str "")
  let team := pyOr (← jGet p "team") (.obj [])
  let teamIdRaw ← jGet team "id"
  let team_id : Option String := tidOfRaw teamIdRaw
  let homeRaw ← jGet p "homeScore"
  let home_score := (toIntPy homeRaw).getD last_home
  let awayRaw ← jGet p "awayScore"
  let away_score := (toIntPy awayRaw).getD last_away
  let scoring_play := truthy (← jGet p "scoringPlay")
  let rawSv ← jGet p "scoreValue"
  let score_val :=
    match toIntPy rawSv with
    | some v => v
    | none =>
      max (home_score - last_home) (max (away_score - last_away) 0)
  let participantsF ← jGet p "participants"
  let athletesInvF ← jGet p "athletesInvolved"
  let parts ← iterElems (pyOr (pyOr participantsF athletesInvF) (.arr []))
  let athlete_ids := parts.foldl collectAid []
  let play_type := pyOr (← jGet p "type") (.obj [])
  let play_type_id ← jGet play_type "id"
  let play_type_text ← jGet play_type "text"
  let shooting_play := truthy (← jGet p "shootingPlay")
  let paRaw ← jGet p "pointsAttempted"
  let points_attempted := (toIntPy paRaw).getD 0
  let short_desc := pyOr (← jGet p "shortDescription") (.str "")
  let period : Option Int ← periodCoerce periodVal
  pure { index := idx, period, clock := pyStr clockV, home_score, away_score,
         team_id, scoring_play,
         score_value := if scoring_play then score_val else 0,
         text, athlete_ids, play_type_id, play_type_text, shooting_play,
         points_attempted, short_desc }

/-- One iteration of the `_extract_basic_play_sequence` loop: normalize
the next raw play and update the previous-cumulative-score state. -/
def extractStep (st : Int × Int × Nat × List Play) (p : JValue) :
    Except PyErr (Int × Int × Nat × List Play) := do
  let (lastH, lastA, idx, acc) := st
  let pl ← processPlay lastH lastA idx p
  pure (pl.home_score, pl.away_score, idx + 1, acc ++ [pl])

/-- Embedding of `_extract_basic_play_sequence`: flatten raw plays into
the normalized sequence, threading the previous cumulative scores. -/
def extractBasicPlaySequence (summary : JValue) : Except PyErr (List Play) := do
  let playsF ← jGet summary "plays"
  let elems ← iterElems (pyOr playsF (.arr []))
  let res ← elems.foldlM extractStep
    ((0 : Int), (0 : Int), (0 : Nat), ([] : List Play))
  pure res.2.2.2

/-- Kept side lookup used by `compute_unanswered_runs` and
`compute_net_runs`: `team_id_to_side.get(team_id) if team_id else None`
(a falsy team id yields `None` without a lookup). -/
def tguard (tmap : List (String × String)) (tid : Option String) :
    Option String :=
  match tid with
  | some t => if t = "" then none else lookupS tmap t
  | none => none

/-- Unguarded side lookup used by `compute_highlight_runs`:
`team_id_to_side.get(ev.get("team_id"))` (a missing id is simply not a
key of the map). -/
def sideUnguard (tmap : List (String × String)) (tid : Option String) :
    Option String :=
  match tid with
  | some t => lookupS tmap t
  | none => none

/-- An emitted unanswered run (`compute_unanswered_runs`). -/
structure URun where
  side : String
  team_id : Option String
  points : Int
  start_index : Nat
  end_index : Nat
  start_period : Option Int
  start_clock : String
  end_period : Option Int
  end_clock : String
deriving Repr, DecidableEq, Inhabited

/-- An emitted net-margin run (`compute_net_runs`). -/
structure NRun where
  side : String
  team_id : Option String
  net_points : Int
  start_index : Nat
  end_index : Nat
  start_period : Option Int
  start_clock : String
  end_period : Option Int
  end_clock : String
deriving Repr, DecidableEq, Inhabited

/-- An emitted highlight run (`compute_highlight_runs`). -/
structure HRun where
  side : String
  team_id : Option String
  points_for : Int
  points_against : Int
  net_points : Int
  start_index : Nat
  end_index : Nat
  start_period : Option Int
  start_clock : String
  end_period : Option Int
  end_clock : String
deriving Repr, DecidableEq, Inhabited

/-- Scan state of `compute_unanswered_runs`. -/
structure URState where
  runs : List URun
  current_side : Option String
  current_team_id : Option String
  current_points : Int
  start_play : Option Play
deriving Inhabited

/-- The `flush_run` closure of `compute_unanswered_runs`: emit the open
run when it passes the threshold, then reset the scan state. -/
def urFlush (min_points : Int) (st : URState) (last_play : Play) : URState :=
  let runs :=
    match st.current_side, st.start_play with
    | some cs, some sp =>
      if cs ≠ "" ∧ st.current_points ≥ min_points then
        st.runs ++ [{ side := cs, team_id := st.current_team_id,
                      points := st.current_points,
                      start_index := sp.index, end_index := last_play.index,
                      start_period := sp.period, start_clock := sp.clock,
                      end_period := last_play.period,
                      end_clock := last_play.clock }]
      else st.runs
    | _, _ => st.runs
  { runs, current_side := none, current_team_id := none, current_points := 0,
    start_play := none }

/-- Loop body of `compute_unanswered_runs` for one play. -/
def urStep (tmap : List (String × String)) (min_points : Int)
    (st : URState) (pl : Play) : URState :=
  if !pl.scoring_play then st
  else
    match tguard tmap pl.team_id with
    | some s =>
      if s = "home" ∨ s = "away" then
        let pts := intOrZero pl.score_value
        match st.current_side with
        | none =>
          { st with current_side := some s, current_team_id := pl.team_id,
                    current_points := pts, start_play := some pl }
        | some cs =>
          if s = cs then { st with current_points := st.current_points + pts }
          else
            let st' := urFlush min_points st pl
            { st' with current_side := some s, current_team_id := pl.team_id,
                       current_points := pts, start_play := some pl }
      else urFlush min_points st pl
    | none => urFlush min_points st pl

/-- Embedding of `compute_unanswered_runs`. -/
def compute_unanswered_runs (plays_seq : List Play)
    (tmap : List (String × String)) (min_points : Int := 7) : List URun :=
  let st := plays_seq.foldl (urStep tmap min_points) ⟨[], none, none, 0, none⟩
  match plays_seq.getLast? with
  | some last => (urFlush min_points st last).runs
  | none => st.runs

/-- Scan state of `compute_net_runs`. -/
structure NRState where
  runs : List NRun
  current_side : Option String
  current_team_id : Option String
  start_play : Option Play
  start_margin_side : Option Int
  current_net : Int
  last_scoring_play : Option Play
deriving Inhabited

/-- `margin_for_side` of `compute_net_runs`: scoreboard margin after a
play, seen from `side`. -/
def margin_for_side (pl : Play) (side : String) : Int :=
  let margin := pl.home_score - pl.away_score
  if side = "home" then margin else -margin

/-- Python `(start_margin_side or 0)`. -/
def optIntOr0 : Option Int → Int
  | none => 0
  | some m => intOrZero m

/-- The `flush_run` closure of `compute_net_runs`; the last scoring play
tracker is untouched by a flush. -/
def netFlush (min_margin : Int) (st : NRState) (final_play : Play) : NRState :=
  let runs :=
    match st.current_side, st.start_play with
    | some cs, some sp =>
      if cs ≠ "" ∧ st.current_net ≥ min_margin then
        st.runs ++ [{ side := cs, team_id := st.current_team_id,
                      net_points := st.current_net,
                      start_index := sp.index, end_index := final_play.index,
                      start_period := sp.period, start_clock := sp.clock,
                      end_period := final_play.period,
                      end_clock := final_play.clock }]
      else st.runs
    | _, _ => st.runs
  { st with runs, current_side := none, current_team_id := none,
            start_play := none, start_margin_side := none, current_net := 0 }

/-- Loop body of `compute_net_runs` for one play. -/
def netStep (tmap : List (String × String)) (min_margin : Int)
    (st : NRState) (pl : Play) : NRState :=
  if !pl.scoring_play then st
  else
    let st := { st with last_scoring_play := some pl }
    match tguard tmap pl.team_id with
    | some s =>
      if s = "home" ∨ s = "away" then
        match st.current_side with
        | none =>
          { st with current_side := some s, current_team_id := pl.team_id,
                    start_play := some pl,
                    start_margin_side := some (margin_for_side pl s),
                    current_net := 0 }
        | some cs =>
          let cur_margin_side := margin_for_side pl cs
          let net_change := cur_margin_side - optIntOr0 st.start_margin_side
          if s = cs then { st with current_net := net_change }
          else if net_change < 0 then
            let st' := netFlush min_margin st pl
            { st' with current_side := some s, current_team_id := pl.team_id,
                       start_play := some pl,
                       start_margin_side := some (margin_for_side pl s),
                       current_net := 0 }
          else { st with current_net := net_change }
      else netFlush min_margin st pl
    | none => netFlush min_margin st pl

/-- Embedding of `compute_net_runs`. -/
def compute_net_runs (plays_seq : List Play)
    (tmap : List (String × String)) (min_margin : Int := 8) : List NRun :=
  let st := plays_seq.foldl (netStep tmap min_margin)
    ⟨[], none, none, none, none, 0, none⟩
  match st.last_scoring_play with
  | some lp => (netFlush min_margin st lp).runs
  | none => st.runs

/-- Inner forward scan of `compute_highlight_runs` from one candidate
start: accumulate points for/against, track the best qualifying net,
and break once `points_against` exceeds the ceiling. -/
def hlScan (tmap : List (String × String)) (start_side : String)
    (min_for max_against : Int) :
    List Play → Int → Int → Int → Option (Play × Int × Int) →
    Option (Play × Int × Int)
  | [], _, _, _, best => best
  | ev :: rest, team_a_score, team_b_score, max_net, best =>
    let ev_side := sideUnguard tmap ev.team_id
    let pts := intOrZero ev.score_value
    let team_a_score :=
      if ev_side = some start_side then team_a_score + pts else team_a_score
    let team_b_score :=
      if ev_side ≠ some start_side ∧
          (ev_side = some "home" ∨ ev_side = some "away")
      then team_b_score + pts else team_b_score
    let current_net := team_a_score - team_b_score
    let mb :=
      if current_net ≥ min_for ∧ team_b_score ≤ max_against ∧
          current_net > max_net
      then (current_net, some (ev, team_a_score, team_b_score))
      else (max_net, best)
    if team_b_score > max_against then mb.2
    else hlScan tmap start_side min_for max_against rest
      team_a_score team_b_score mb.1 mb.2

/-- Outer loop of `compute_highlight_runs`: each scoring event is a
candidate start for its (resolved) side. -/
def hlGo (tmap : List (String × String)) (min_for max_against : Int) :
    List Play → List HRun
  | [] => []
  | ev :: rest =>
    let head_runs :=
      match sideUnguard tmap ev.team_id with
      | some s =>
        if s = "home" ∨ s = "away" then
          match hlScan tmap s min_for max_against (ev :: rest) 0 0 0 none with
          | some (best_end, best_for, best_against) =>
            [{ side := s, team_id := ev.team_id, points_for := best_for,
               points_against := best_against,
               net_points := best_for - best_against,
               start_index := ev.index, end_index := best_end.index,
               start_period := ev.period, start_clock := ev.clock,
               end_period := best_end.period, end_clock := best_end.clock }]
          | none => []
        else []
      | none => []
    head_runs ++ hlGo tmap min_for max_against rest

/-- Embedding of `compute_highlight_runs`. -/
def compute_highlight_runs (plays_seq : List Play)
    (tmap : List (String × String)) (min_for : Int := 8)
    (max_against : Int := 5) : List HRun :=
  hlGo tmap min_for max_against (plays_seq.filter fun pl => pl.scoring_play)

/-- Entry of `teams_by_side` in `_build_team_maps`. -/
structure TeamEntry where
  id : String
  name : JValue
deriving Repr, Inhabited

/-- Result of `_build_team_maps`. Sides are stored raw (whatever value
the `homeAway` field held), so `teams_by_side` is keyed by `JValue` and
`team_id_to_side` is `str -> raw side value`. -/
structure TeamMaps where
  teams_by_side : List (JValue × TeamEntry)
  team_id_to_side : List (String × JValue)
  competition : JValue
deriving Repr, Inhabited

/-- Python hashability on the JSON fragment (dict keys): lists and
dicts are unhashable. -/
def pyHashable : JValue → Bool
  | .arr _ => false
  | .obj _ => false
  | _ => true

/-- Loop body of `_build_team_maps` for one competitor entry. -/
def teamStep (maps : List (JValue × TeamEntry) × List (String × JValue))
    (c : JValue) :
    Except PyErr (List (JValue × TeamEntry) × List (String × JValue)) := do
  let side ← jGet c "homeAway"
  let team := pyOr (← jGetD c "team" (.obj [])) (.obj [])
  let teamIdRaw ← jGet team "id"
  match tidOfRaw teamIdRaw with
  | none => pure maps
  | some t =>
    if t = "" ∨ !truthy side then pure maps
    else do
      let tis := setS maps.2 t side
      let name := pyOr (← jGet team "shortDisplayName")
        (← jGet team "displayName")
      if !pyHashable side then throw .typeError
      else pure (setW jvEq maps.1 side ⟨t, name⟩, tis)

/-- Embedding of `_build_team_maps`. -/
def buildTeamMaps (summary : JValue) : Except PyErr TeamMaps := do
  let header ← jGetD summary "header" (.obj [])
  let competitions := pyOr (← jGet header "competitions") (.arr [])
  if !truthy competitions then throw .runtimeError
  else do
    let comp ← pyIndex0 competitions
    let competitors := pyOr (← jGet comp "competitors") (.arr [])
    let cs ← iterElems competitors
    let maps ← cs.foldlM teamStep ([], [])
    pure { teams_by_side := maps.1, team_id_to_side := maps.2,
           competition := comp }

/-- The fixed-shape counting-stat record (`_empty_stats`). -/
structure Stats where
  pts : Int
  fgm : Int
  fga : Int
  tpm : Int
  tpa : Int
  ftm : Int
  fta : Int
  reb : Int
  oreb : Int
  dreb : Int
  ast : Int
  stl : Int
  blk : Int
  tov : Int
deriving Repr, DecidableEq, Inhabited

/-- `_empty_stats()`. -/
def emptyStats : Stats := ⟨0, 0, 0, 0, 0, 0, 0, 0, 0, 0, 0, 0, 0, 0⟩

/-- The fields of a `players_by_id` entry that the quarter aggregator
reads. -/
structure PMeta where
  name : JValue
  team_id : Option String
  side : Option String
deriving Repr, Inhabited

/-- A per-quarter player totals entry (`get_player_stats` creation). -/
structure PEnt where
  player_id : String
  name : JValue
  team_id : Option String
  side : Option String
  stats : Stats
deriving Repr, Inhabited

/-- `{quarter: {side: stats}}`. -/
abbrev QT := List (Int × List (String × Stats))

/-- `{quarter: {player_id: entry}}`. -/
abbrev QP := List (Int × List (String × PEnt))

/-- Int-keyed dict lookup. -/
def lookupI (l : List (Int × β)) (k : Int) : Option β :=
  lookupW (· == ·) l k

/-- Int-keyed dict update. -/
def setI (l : List (Int × β)) (k : Int) (v : β) : List (Int × β) :=
  setW (· == ·) l k v

/-- Python `a or b` on optional strings ( `None` and `""` are falsy). -/
def strOr (a b : Option String) : Option String :=
  match a with
  | none => b
  | some s => if s = "" then b else s

/-- Python truthiness of an optional string. -/
def sideTruthy : Option String → Bool
  | none => false
  | some s => s ≠ ""

/-- Run `f` on the side string when it is truthy, else keep `st`
(`if side: ...`). -/
def withSide (s? : Option String) (st : α) (f : String → α) : α :=
  match s? with
  | none => st
  | some s => if s = "" then st else f s

/-- Side resolution for an athlete id:
`meta.get("side") or (team_id_to_side.get(meta.get("team_id")) if meta.get("team_id") else None)`
with `meta = players_by_id.get(x, {})`. -/
def resolveSide (pbi : List (String × PMeta)) (tmap : List (String × String))
    (pid : String) : Option String :=
  let meta := (lookupS pbi pid).getD ⟨.null, none, none⟩
  strOr meta.side (tguard tmap meta.team_id)

/-- `get_player_stats` entry creation for a player id first seen in a
period. -/
def mkPEnt (pbi : List (String × PMeta)) (tmap : List (String × String))
    (pid : String) : PEnt :=
  let meta := (lookupS pbi pid).getD ⟨.null, none, none⟩
  { player_id := pid, name := meta.name, team_id := meta.team_id,
    side := strOr meta.side (tguard tmap meta.team_id), stats := emptyStats }

/-- `get_team_stats` followed by an in-place stat mutation. -/
def updTeam (qt : QT) (period : Int) (side : String) (f : Stats → Stats) :
    QT :=
  let m := (lookupI qt period).getD []
  let s := (lookupS m side).getD emptyStats
  setI qt period (setS m side (f s))

/-- `get_player_stats` followed by an in-place stat mutation. -/
def updPlayer (qp : QP) (pbi : List (String × PMeta))
    (tmap : List (String × String)) (period : Int) (pid : String)
    (f : Stats → Stats) : QP :=
  let m := (lookupI qp period).getD []
  let e := (lookupS m pid).getD (mkPEnt pbi tmap pid)
  setI qp period (setS m pid { e with stats := f e.stats })

/-- ASCII `str.lower()` character by character (the play-by-play text
this script lowers is ASCII). -/
def strLower (s : String) : String := String.mk (s.toList.map Char.toLower)

/-- Python `.lower()`: defined on strings only. -/
def pyLowerE : JValue → Except PyErr String
  | .str s => .ok (strLower s)
  | _ => .error .attributeError

/-- The FIELD GOALS & FREE THROWS block of
`compute_quarter_team_and_player_totals` (including assists). -/
def ftFgSection (tmap : List (String × String)) (pbi : List (String × PMeta))
    (period : Int) (tl ttl sl : String) (pl : Play)
    (side_for_team : Option String) (st : QT × QP) : QT × QP :=
  if pl.shooting_play ∧ intOrZero pl.points_attempted > 0 then
    let score_val := intOrZero pl.score_value
    let is_free_throw := pyInStr "free throw" ttl || pyInStr "free throw" tl
    if is_free_throw then
      match pl.athlete_ids with
      | [] => st
      | shooter_id :: _ =>
        let shooter_side := resolveSide pbi tmap shooter_id
        let ftUpd : Stats → Stats := fun t =>
          let t := { t with fta := t.fta + 1 }
          if pl.scoring_play ∧ score_val > 0 then
            { t with ftm := t.ftm + 1, pts := t.pts + score_val }
          else t
        let qt1 := withSide shooter_side st.1 fun s =>
          updTeam st.1 period s ftUpd
        let qp1 := updPlayer st.2 pbi tmap period shooter_id ftUpd
        (qt1, qp1)
    else
      let is_three := pyInStr "three point" tl || pyInStr "3pt" sl
      let shooter_id? := pl.athlete_ids.head?
      let made := pl.scoring_play ∧ score_val > 0
      let fgUpd : Stats → Stats := fun t =>
        let t := { t with fga := t.fga + 1 }
        let t := if is_three then { t with tpa := t.tpa + 1 } else t
        if made then
          let t := { t with fgm := t.fgm + 1, pts := t.pts + score_val }
          if is_three then { t with tpm := t.tpm + 1 } else t
        else t
      let qp1 :=
        match shooter_id? with
        | some shooter_id =>
          if shooter_id = "" then st.2
          else updPlayer st.2 pbi tmap period shooter_id fgUpd
        | none => st.2
      let side :=
        match shooter_id? with
        | some sid =>
          if sid ≠ "" ∧ (lookupS pbi sid).isSome then
            let meta := (lookupS pbi sid).getD ⟨.null, none, none⟩
            strOr meta.side (tguard tmap meta.team_id)
          else side_for_team
        | none => side_for_team
      let qt1 := withSide side st.1 fun s => updTeam st.1 period s fgUpd
      if made ∧ pyInStr "assists" tl ∧ pl.athlete_ids.length > 1 then
        let assister_id := pl.athlete_ids.getD 1 ""
        let qp2 := updPlayer qp1 pbi tmap period assister_id fun t =>
          { t with ast := t.ast + 1 }
        let side_ast := resolveSide pbi tmap assister_id
        let qt2 := withSide side_ast qt1 fun s =>
          updTeam qt1 period s fun t => { t with ast := t.ast + 1 }
        (qt2, qp2)
      else (qt1, qp1)
  else st

/-- The REBOUNDS block of `compute_quarter_team_and_player_totals`. -/
def rebSection (tmap : List (String × String)) (pbi : List (String × PMeta))
    (period : Int) (ttl : String) (pl : Play)
    (side_for_team : Option String) (st : QT × QP) : QT × QP :=
  if pyInStr "rebound" ttl then
    let is_off := pyInStr "offensive" ttl
    let rebUpd : Stats → Stats := fun t =>
      let t := { t with reb := t.reb + 1 }
      if is_off then { t with oreb := t.oreb + 1 }
      else { t with dreb := t.dreb + 1 }
    match pl.athlete_ids with
    | reb_id :: _ =>
      let qp1 := updPlayer st.2 pbi tmap period reb_id rebUpd
      let side := resolveSide pbi tmap reb_id
      let qt1 := withSide side st.1 fun s => updTeam st.1 period s rebUpd
      (qt1, qp1)
    | [] =>
      let qt1 := withSide side_for_team st.1 fun s =>
        updTeam st.1 period s rebUpd
      (qt1, st.2)
  else st

/-- The TURNOVERS block of `compute_quarter_team_and_player_totals`. -/
def tovSection (tmap : List (String × String)) (pbi : List (String × PMeta))
    (period : Int) (tl ttl : String) (pl : Play)
    (side_for_team : Option String) (st : QT × QP) : QT × QP :=
  if pyInStr "turnover" ttl || pyInStr "turnover" tl ||
      pyInStr "offensive foul" tl then
    match pl.athlete_ids with
    | tov_id :: _ =>
      let qp1 := updPlayer st.2 pbi tmap period tov_id fun t =>
        { t with tov := t.tov + 1 }
      let side := resolveSide pbi tmap tov_id
      let qt1 := withSide side st.1 fun s =>
        updTeam st.1 period s fun t => { t with tov := t.tov + 1 }
      (qt1, qp1)
    | [] =>
      let qt1 := withSide side_for_team st.1 fun s =>
        updTeam st.1 period s fun t => { t with tov := t.tov + 1 }
      (qt1, st.2)
  else st

/-- The STEALS block of `compute_quarter_team_and_player_totals`. -/
def stlSection (tmap : List (String × String)) (pbi : List (String × PMeta))
    (period : Int) (tl : String) (pl : Play) (st : QT × QP) : QT × QP :=
  if pyInStr "steals" tl ∧ pl.athlete_ids.length > 1 then
    let stealer_id := pl.athlete_ids.getD 1 ""
    let qp1 := updPlayer st.2 pbi tmap period stealer_id fun t =>
      { t with stl := t.stl + 1 }
    let side := resolveSide pbi tmap stealer_id
    let qt1 := withSide side st.1 fun s =>
      updTeam st.1 period s fun t => { t with stl := t.stl + 1 }
    (qt1, qp1)
  else st

/-- The BLOCKS block of `compute_quarter_team_and_player_totals`. -/
def blkSection (tmap : List (String × String)) (pbi : List (String × PMeta))
    (period : Int) (tl : String) (pl : Play) (st : QT × QP) : QT × QP :=
  if pyInStr "blocks" tl ∧ pl.athlete_ids.length > 1 then
    let blocker_id := pl.athlete_ids.getD 1 ""
    let qp1 := updPlayer st.2 pbi tmap period blocker_id fun t =>
      { t with blk := t.blk + 1 }
    let side := resolveSide pbi tmap blocker_id
    let qt1 := withSide side st.1 fun s =>
      updTeam st.1 period s fun t => { t with blk := t.blk + 1 }
    (qt1, qp1)
  else st

/-- Loop body of `compute_quarter_team_and_player_totals` for one
normalized play. -/
def aggStep (tmap : List (String × String)) (pbi : List (String × PMeta))
    (st : QT × QP) (pl : Play) : Except PyErr (QT × QP) :=
  match pl.period with
  | none => pure st
  | some period => do
    let tl ← pyLowerE (pyOr pl.text (.str ""))
    let ttl ← pyLowerE (pyOr pl.play_type_text (.str ""))
    let sl ← pyLowerE (pyOr pl.short_desc (.str ""))
    let side_for_team := tguard tmap pl.team_id
    let st := ftFgSection tmap pbi period tl ttl sl pl side_for_team st
    let st := rebSection tmap pbi period ttl pl side_for_team st
    let st := tovSection tmap pbi period tl ttl pl side_for_team st
    let st := stlSection tmap pbi period tl pl st
    let st := blkSection tmap pbi period tl pl st
    pure st

/-- Embedding of `compute_quarter_team_and_player_totals`. -/
def computeQuarterTotals (plays_seq : List Play)
    (tmap : List (String × String)) (pbi : List (String × PMeta)) :
    Except PyErr (QT × QP) :=
  plays_seq.foldlM (aggStep tmap pbi) ([], [])

/-- A play sequence is well-indexed when each play's stored `index`
equals its position; `_extract_basic_play_sequence` always produces
such sequences (it stores `enumerate` positions). -/
def WellIdxB (seq : List Play) : Bool :=
  seq.enum.all fun ip => ip.2.index == ip.1

/-- Propositional form of `WellIdxB` (decidable). -/
def WellIdx (seq : List Play) : Prop := WellIdxB seq = true

instance (seq : List Play) : Decidable (WellIdx seq) := by
  unfold WellIdx
  infer_instance

theorem wellIdx_get? {seq : List Play} (hw : WellIdx seq) {k : Nat}
    {pl : Play} (h : seq.get? k = some pl) : pl.index = k := by
  have hm : ((k, pl) : Nat × Play) ∈ seq.enum := List.mem_enum_iff_get?.mpr h
  have := List.all_eq_true.mp hw _ hm
  simpa using this

theorem wellIdx_mem {seq : List Play} (hw : WellIdx seq) {pl : Play}
    (h : pl ∈ seq) : seq.get? pl.index = some pl := by
  rcases List.mem_iff_get?.mp h with ⟨k, hk⟩
  have hik := wellIdx_get? hw hk
  rw [hik]
  exact hk

theorem wellIdx_mem_take {seq : List Play} (hw : WellIdx seq) {n : Nat}
    {pl : Play} (h : pl ∈ seq.take n) : pl.index < n := by
  rcases List.mem_iff_get?.mp h with ⟨k, hk⟩
  have hkl : k < (seq.take n).length := (List.get?_eq_some.mp hk).1
  have hkn : k < n := by
    have := List.length_take n seq
    omega
  have hk' : seq.get? k = some pl := by
    rwa [List.get?_take hkn] at hk
  have := wellIdx_get? hw hk'
  omega

theorem wellIdx_mem_drop {seq : List Play} (hw : WellIdx seq) {n : Nat}
    {pl : Play} (h : pl ∈ seq.drop n) : n ≤ pl.index := by
  rcases List.mem_iff_get?.mp h with ⟨k, hk⟩
  rw [List.get?_drop] at hk
  have := wellIdx_get? hw hk
  omega

/-- The scoring events a run scan attributes to side `s` within the
half-open index range `[lo, hi)`. -/
def runFilter (tmap : List (String × String)) (s : String) (lo hi : Nat)
    (pl : Play) : Bool :=
  pl.scoring_play && (tguard tmap pl.team_id == some s) &&
    decide (lo ≤ pl.index) && decide (pl.index < hi)

/-- Sum of side `s`'s scoring-event point values over index range
`[lo, hi)`. -/
def sumIdxLt (tmap : List (String × String)) (s : String) (lo hi : Nat)
    (seq : List Play) : Int :=
  ((seq.filter (runFilter tmap s lo hi)).map fun pl => pl.score_value).sum

/-- Replay of an emitted run against the original sequence: the sum of
the run side's scoring-event point values over the inclusive index
range `[lo, hi]`. -/
def replayPoints (tmap : List (String × String)) (s : String) (lo hi : Nat)
    (seq : List Play) : Int :=
  ((seq.filter fun pl =>
      pl.scoring_play && (tguard tmap pl.team_id == some s) &&
        decide (lo ≤ pl.index) && decide (pl.index ≤ hi)).map
    fun pl => pl.score_value).sum

theorem replayPoints_eq (tmap : List (String × String)) (s : String)
    (lo hi : Nat) (seq : List Play) :
    replayPoints tmap s lo hi seq = sumIdxLt tmap s lo (hi + 1) seq := by
  unfold replayPoints sumIdxLt
  have hf : (seq.filter fun pl =>
      pl.scoring_play && (tguard tmap pl.team_id == some s) &&
        decide (lo ≤ pl.index) && decide (pl.index ≤ hi)) =
      seq.filter (runFilter tmap s lo (hi + 1)) := by
    apply List.filter_congr
    intro x _
    simp [runFilter, Nat.lt_succ_iff]
  rw [hf]

theorem sumIdxLt_append (tmap : List (String × String)) (s : String)
    (lo hi : Nat) (l₁ l₂ : List Play) :
    sumIdxLt tmap s lo hi (l₁ ++ l₂) =
      sumIdxLt tmap s lo hi l₁ + sumIdxLt tmap s lo hi l₂ := by
  simp [sumIdxLt, List.filter_append]

theorem sumIdxLt_eq_zero {tmap : List (String × String)} {s : String}
    {lo hi : Nat} {l : List Play}
    (h : ∀ pl ∈ l, ¬(lo ≤ pl.index ∧ pl.index < hi)) :
    sumIdxLt tmap s lo hi l = 0 := by
  unfold sumIdxLt
  have hnil : l.filter (runFilter tmap s lo hi) = [] := by
    rw [List.filter_eq_nil]
    intro a ha
    have hna := h a ha
    unfold runFilter
    simp only [Bool.and_eq_true, decide_eq_true_eq, not_and]
    intro h1 h2
    exact absurd ⟨h1.2, h2⟩ hna
  rw [hnil]
  simp

theorem sumIdxLt_hi_le {tmap : List (String × String)} {s : String}
    {lo hi : Nat} {l : List Play} (h : hi ≤ lo) :
    sumIdxLt tmap s lo hi l = 0 :=
  sumIdxLt_eq_zero (by intro pl _; omega)

/-- Contribution of one play to a side's in-range sum. -/
def contrib (tmap : List (String × String)) (s : String) (pl : Play) : Int :=
  if pl.scoring_play && (tguard tmap pl.team_id == some s)
  then pl.score_value else 0

theorem contrib_eq_zero_of_not_scoring {tmap : List (String × String)}
    {s : String} {pl : Play} (h : pl.scoring_play = false) :
    contrib tmap s pl = 0 := by
  simp [contrib, h]

theorem contrib_eq_zero_of_side {tmap : List (String × String)} {s : String}
    {pl : Play} (h : tguard tmap pl.team_id ≠ some s) :
    contrib tmap s pl = 0 := by
  simp [contrib, h]

theorem contrib_eq_val {tmap : List (String × String)} {s : String}
    {pl : Play} (h1 : pl.scoring_play = true)
    (h2 : tguard tmap pl.team_id = some s) :
    contrib tmap s pl = pl.score_value := by
  simp [contrib, h1, h2]

theorem sumIdxLt_cons (tmap : List (String × String)) (s : String)
    (lo hi : Nat) (pl : Play) (l : List Play) :
    sumIdxLt tmap s lo hi (pl :: l) =
      (if runFilter tmap s lo hi pl then pl.score_value else 0) +
        sumIdxLt tmap s lo hi l := by
  unfold sumIdxLt
  rw [List.filter_cons]
  split <;> simp

/-- Extending a side sum's upper bound by one position of a
well-indexed sequence adds exactly that position's contribution. -/
theorem sumIdxLt_succ_top {tmap : List (String × String)} {s : String}
    {seq : List Play} (hw : WellIdx seq) {n : Nat} {pl : Play}
    (hn : seq.get? n = some pl) {lo : Nat} (hlo : lo ≤ n) :
    sumIdxLt tmap s lo (n + 1) seq =
      sumIdxLt tmap s lo n seq + contrib tmap s pl := by
  have hlen : n < seq.length := (List.get?_eq_some.mp hn).1
  have hidx : pl.index = n := wellIdx_get? hw hn
  have hdecomp : seq = seq.take n ++ pl :: seq.drop (n + 1) := by
    conv_lhs => rw [← List.take_append_drop n seq]
    congr 1
    rw [List.drop_eq_get_cons hlen]
    congr 1
    have h2 := List.get?_eq_get hlen
    rw [hn] at h2
    exact (Option.some_injective _ h2).symm
  have hA : sumIdxLt tmap s lo (n + 1) (seq.take n) =
      sumIdxLt tmap s lo n (seq.take n) := by
    unfold sumIdxLt
    congr 2
    apply List.filter_congr
    intro x hx
    have hxn : x.index < n := wellIdx_mem_take hw hx
    have h1 : decide (x.index < n) = true := decide_eq_true hxn
    have h2 : decide (x.index < n + 1) = true :=
      decide_eq_true (Nat.lt_succ_of_lt hxn)
    simp [runFilter, h1, h2]
  have hD1 : sumIdxLt tmap s lo (n + 1) (seq.drop (n + 1)) = 0 := by
    apply sumIdxLt_eq_zero
    intro x hx
    have := wellIdx_mem_drop hw hx
    omega
  have hD2 : sumIdxLt tmap s lo n (seq.drop (n + 1)) = 0 := by
    apply sumIdxLt_eq_zero
    intro x hx
    have := wellIdx_mem_drop hw hx
    omega
  have hpl1 : (if runFilter tmap s lo (n + 1) pl then pl.score_value else 0)
      = contrib tmap s pl := by
    unfold runFilter contrib
    have h1 : decide (lo ≤ pl.index) = true := decide_eq_true (by omega)
    have h2 : decide (pl.index < n + 1) = true := decide_eq_true (by omega)
    simp [h1, h2]
  have hpl2 : (if runFilter tmap s lo n pl then pl.score_value else 0) = 0 := by
    unfold runFilter
    have h2 : decide (pl.index < n) = false := by
      simp [hidx]
    simp [h2]
  calc sumIdxLt tmap s lo (n + 1) seq
      = sumIdxLt tmap s lo (n + 1) (seq.take n) +
          ((if runFilter tmap s lo (n + 1) pl then pl.score_value else 0) +
            sumIdxLt tmap s lo (n + 1) (seq.drop (n + 1))) := by
        conv_lhs => rw [hdecomp]
        rw [sumIdxLt_append, sumIdxLt_cons]
    _ = sumIdxLt tmap s lo n (seq.take n) + contrib tmap s pl := by
        rw [hA, hD1, hpl1]; ring
    _ = (sumIdxLt tmap s lo n (seq.take n) +
          ((if runFilter tmap s lo n pl then pl.score_value else 0) +
            sumIdxLt tmap s lo n (seq.drop (n + 1)))) + contrib tmap s pl := by
        rw [hD2, hpl2]; ring
    _ = sumIdxLt tmap s lo n seq + contrib tmap s pl := by
        conv_rhs => rw [hdecomp]
        rw [sumIdxLt_append, sumIdxLt_cons]

/-- Facts established about every emitted unanswered run: threshold,
round-trip of the points over the run's index range, ordered span, and
membership of the endpoint events in the sequence. -/
def UROut (tmap : List (String × String)) (minp : Int) (seq : List Play)
    (r : URun) : Prop :=
  r.points ≥ minp ∧
  r.points = sumIdxLt tmap r.side r.start_index (r.end_index + 1) seq ∧
  r.start_index ≤ r.end_index ∧
  (∃ sp, seq.get? r.start_index = some sp ∧ sp.scoring_play = true) ∧
  (∃ ep, seq.get? r.end_index = some ep ∧
    (ep.scoring_play = true ∨ r.end_index = seq.length - 1))

/-- Invariant of an open unanswered run after `pos` plays of `seq`
have been processed. -/
def UROpen (tmap : List (String × String)) (seq : List Play) (pos : Nat)
    (st : URState) : Prop :=
  ∃ s sp, st.current_side = some s ∧ st.start_play = some sp ∧
    (s = "home" ∨ s = "away") ∧ seq.get? sp.index = some sp ∧
    sp.index < pos ∧ sp.scoring_play = true ∧
    st.current_points = sumIdxLt tmap s sp.index pos seq

/-- Scan invariant of `compute_unanswered_runs` after `pos` plays. -/
def URInv (tmap : List (String × String)) (minp : Int) (seq : List Play)
    (pos : Nat) (st : URState) : Prop :=
  (∀ r ∈ st.runs, UROut tmap minp seq r) ∧
  ((st.current_side = none ∧ st.start_play = none) ∨
    UROpen tmap seq pos st)

theorem urFlush_runs (minp : Int) (st : URState) (lp : Play) :
    (urFlush minp st lp).runs = st.runs ∨
    (∃ cs sp, st.current_side = some cs ∧ st.start_play = some sp ∧
      st.current_points ≥ minp ∧
      (urFlush minp st lp).runs = st.runs ++
        [{ side := cs, team_id := st.current_team_id,
           points := st.current_points, start_index := sp.index,
           end_index := lp.index, start_period := sp.period,
           start_clock := sp.clock, end_period := lp.period,
           end_clock := lp.clock }]) := by
  unfold urFlush
  cases hcs : st.current_side with
  | none => left; rfl
  | some cs =>
    cases hsp : st.start_play with
    | none => left; rfl
    | some sp =>
      by_cases hcond : cs ≠ "" ∧ st.current_points ≥ minp
      · right
        refine ⟨cs, sp, rfl, rfl, hcond.2, ?_⟩
        simp [hcond]
      · left
        simp [hcond]

theorem urFlush_side (minp : Int) (st : URState) (lp : Play) :
    (urFlush minp st lp).current_side = none := rfl

theorem urFlush_start (minp : Int) (st : URState) (lp : Play) :
    (urFlush minp st lp).start_play = none := rfl

/-- Emitted-run facts are preserved by a flush at a play `lp` sitting at
position `pos` of the sequence, provided `lp` contributes nothing to
the open side's sum (it is not a scoring play of the open side). -/
theorem urFlush_out {tmap : List (String × String)} {minp : Int}
    {seq : List Play} {pos : Nat} {st : URState} (hw : WellIdx seq)
    {lp : Play} (hget : seq.get? pos = some lp)
    (hinv : URInv tmap minp seq pos st)
    (hcontrib : ∀ s sp, st.current_side = some s → st.start_play = some sp →
      contrib tmap s lp = 0)
    (hlast : lp.scoring_play = true ∨ pos = seq.length - 1) :
    ∀ r ∈ (urFlush minp st lp).runs, UROut tmap minp seq r := by
  intro r hr
  have hidx : lp.index = pos := wellIdx_get? hw hget
  rcases urFlush_runs minp st lp with heq | ⟨cs, sp, hcs, hsp, hge, heq⟩
  · rw [heq] at hr
    exact hinv.1 r hr
  · rw [heq] at hr
    rcases List.mem_append.mp hr with hold | hnew
    · exact hinv.1 r hold
    · have hrr := List.mem_singleton.mp hnew
      subst hrr
      rcases hinv.2 with ⟨hc, _⟩ | ⟨s, sp', hcs', hsp', hok, hspget, hsplt, hspsc, hpts⟩
      · rw [hc] at hcs; cases hcs
      · have hs : cs = s := by
          rw [hcs] at hcs'; exact Option.some_injective _ hcs'
        have hsp2 : sp = sp' := by
          rw [hsp] at hsp'; exact Option.some_injective _ hsp'
        subst hs; subst hsp2
        refine ⟨hge, ?_, ?_, ⟨sp, hspget, hspsc⟩, ⟨lp, ?_, ?_⟩⟩
        · show st.current_points = sumIdxLt tmap cs sp.index (lp.index + 1) seq
          rw [hidx, sumIdxLt_succ_top hw hget (by omega),
            hcontrib cs sp hcs' hsp', hpts]
          ring
        · show sp.index ≤ lp.index
          omega
        · show seq.get? lp.index = some lp
          rw [hidx]; exact hget
        · show lp.scoring_play = true ∨ lp.index = seq.length - 1
          rw [hidx]; exact hlast

theorem urStep_not_scoring {tmap : List (String × String)} {minp : Int}
    {st : URState} {pl : Play} (h : pl.scoring_play = false) :
    urStep tmap minp st pl = st := by
  simp [urStep, h]

theorem urStep_unattrib {tmap : List (String × String)} {minp : Int}
    {st : URState} {pl : Play} (h : pl.scoring_play = true)
    (hside : tguard tmap pl.team_id = none) :
    urStep tmap minp st pl = urFlush minp st pl := by
  simp [urStep, h, hside]

theorem urStep_badside {tmap : List (String × String)} {minp : Int}
    {st : URState} {pl : Play} {s : String} (h : pl.scoring_play = true)
    (hside : tguard tmap pl.team_id = some s)
    (hok : ¬(s = "home" ∨ s = "away")) :
    urStep tmap minp st pl = urFlush minp st pl := by
  simp only [urStep, h, Bool.not_true, Bool.false_eq_true, if_false, hside]
  rw [if_neg hok]

theorem urStep_open_new {tmap : List (String × String)} {minp : Int}
    {st : URState} {pl : Play} {s : String} (h : pl.scoring_play = true)
    (hside : tguard tmap pl.team_id = some s)
    (hok : s = "home" ∨ s = "away") (hcs : st.current_side = none) :
    urStep tmap minp st pl =
      { st with current_side := some s, current_team_id := pl.team_id,
                current_points := intOrZero pl.score_value,
                start_play := some pl } := by
  simp only [urStep, h, Bool.not_true, Bool.false_eq_true, if_false, hside,
    hcs]
  rw [if_pos hok]

theorem urStep_same_side {tmap : List (String × String)} {minp : Int}
    {st : URState} {pl : Play} {s : String} (h : pl.scoring_play = true)
    (hside : tguard tmap pl.team_id = some s)
    (hok : s = "home" ∨ s = "away") {cs : String}
    (hcs : st.current_side = some cs) (heq : s = cs) :
    urStep tmap minp st pl =
      { st with current_points :=
          st.current_points + intOrZero pl.score_value } := by
  simp only [urStep, h, Bool.not_true, Bool.false_eq_true, if_false, hside,
    hcs]
  rw [if_pos hok, if_pos heq]

theorem urStep_switch {tmap : List (String × String)} {minp : Int}
    {st : URState} {pl : Play} {s : String} (h : pl.scoring_play = true)
    (hside : tguard tmap pl.team_id = some s)
    (hok : s = "home" ∨ s = "away") {cs : String}
    (hcs : st.current_side = some cs) (heq : ¬s = cs) :
    urStep tmap minp st pl =
      { runs := (urFlush minp st pl).runs, current_side := some s,
        current_team_id := pl.team_id,
        current_points := intOrZero pl.score_value,
        start_play := some pl } := by
  simp only [urStep, h, Bool.not_true, Bool.false_eq_true, if_false, hside,
    hcs]
  rw [if_pos hok, if_neg heq]

/-- One step of the unanswered-run scan preserves the invariant. -/
theorem ur_step_inv {tmap : List (String × String)} {minp : Int}
    {seq : List Play} {pos : Nat} (hw : WellIdx seq) {pl : Play}
    (hget : seq.get? pos = some pl) {st : URState}
    (hinv : URInv tmap minp seq pos st) :
    URInv tmap minp seq (pos + 1) (urStep tmap minp st pl) := by
  have hidx : pl.index = pos := wellIdx_get? hw hget
  have hsum : ∀ (s : String) (lo : Nat), lo ≤ pos →
      sumIdxLt tmap s lo (pos + 1) seq =
        sumIdxLt tmap s lo pos seq + contrib tmap s pl :=
    fun s lo h => sumIdxLt_succ_top hw hget h
  by_cases hsc : pl.scoring_play = true
  · cases hside : tguard tmap pl.team_id with
    | none =>
      rw [urStep_unattrib hsc hside]
      refine ⟨urFlush_out hw hget hinv ?_ (Or.inl hsc),
        Or.inl ⟨urFlush_side minp st pl, urFlush_start minp st pl⟩⟩
      intro s sp _ _
      exact contrib_eq_zero_of_side (by simp [hside])
    | some s =>
      by_cases hok : s = "home" ∨ s = "away"
      · rcases hinv.2 with ⟨hcs, _⟩ | ⟨s0, sp, hcs, hsp', hok0, hspget,
          hsplt, hspsc, hpts⟩
        · rw [urStep_open_new hsc hside hok hcs]
          refine ⟨fun r hr => hinv.1 r hr, Or.inr ?_⟩
          refine ⟨s, pl, rfl, rfl, hok, by rw [hidx]; exact hget,
            by omega, hsc, ?_⟩
          show intOrZero pl.score_value =
            sumIdxLt tmap s pl.index (pos + 1) seq
          rw [intOrZero_eq, hidx, hsum s pos le_rfl, sumIdxLt_hi_le le_rfl,
            contrib_eq_val hsc hside]
          ring
        · by_cases heq : s = s0
          · rw [urStep_same_side hsc hside hok hcs heq]
            refine ⟨fun r hr => hinv.1 r hr, Or.inr ?_⟩
            refine ⟨s0, sp, hcs, hsp', hok0, hspget, by omega, hspsc, ?_⟩
            show st.current_points + intOrZero pl.score_value =
              sumIdxLt tmap s0 sp.index (pos + 1) seq
            rw [intOrZero_eq, hsum s0 sp.index (by omega),
              contrib_eq_val hsc (by rw [hside, heq]), hpts]
          · rw [urStep_switch hsc hside hok hcs heq]
            constructor
            · intro r hr
              exact urFlush_out hw hget hinv
                (by
                  intro s1 sp1 hc1 _
                  have hs1 : s1 = s0 := by
                    rw [hcs] at hc1; exact (Option.some_injective _ hc1).symm
                  subst hs1
                  exact contrib_eq_zero_of_side (by
                    rw [hside]
                    intro hcon
                    exact heq (Option.some_injective _ hcon)))
                (Or.inl hsc) r hr
            · refine Or.inr ⟨s, pl, rfl, rfl, hok, by rw [hidx]; exact hget,
                by omega, hsc, ?_⟩
              show intOrZero pl.score_value =
                sumIdxLt tmap s pl.index (pos + 1) seq
              rw [intOrZero_eq, hidx, hsum s pos le_rfl,
                sumIdxLt_hi_le le_rfl, contrib_eq_val hsc hside]
              ring
      · rw [urStep_badside hsc hside hok]
        refine ⟨?_, Or.inl ⟨urFlush_side minp st pl, urFlush_start minp st pl⟩⟩
        intro r hr
        refine urFlush_out hw hget hinv ?_ (Or.inl hsc) r hr
        intro s1 sp1 hc1 _
        rcases hinv.2 with ⟨hc, _⟩ | ⟨s0, sp, hcs', _, hok0, _, _, _, _⟩
        · rw [hc] at hc1; cases hc1
        · have hs1 : s1 = s0 := by
            rw [hcs'] at hc1; exact (Option.some_injective _ hc1).symm
          subst hs1
          refine contrib_eq_zero_of_side (by
            rw [hside]
            intro hcon
            exact hok (by rw [Option.some_injective _ hcon]; exact hok0))
  · have hsc' : pl.scoring_play = false := by
      cases h : pl.scoring_play
      · rfl
      · exact absurd h hsc
    rw [urStep_not_scoring hsc']
    refine ⟨hinv.1, ?_⟩
    rcases hinv.2 with hclosed | ⟨s0, sp, hcs', hsp', hok0, hspget, hsplt,
      hspsc, hpts⟩
    · exact Or.inl hclosed
    · refine Or.inr ⟨s0, sp, hcs', hsp', hok0, hspget, by omega, hspsc, ?_⟩
      rw [hsum s0 sp.index (by omega), contrib_eq_zero_of_not_scoring hsc',
        hpts]
      ring

/-- Folding the unanswered-run step over the remaining plays carries the
invariant to the end of the sequence. -/
theorem ur_loop {tmap : List (String × String)} {minp : Int}
    {seq : List Play} (hw : WellIdx seq) :
    ∀ (rest : List Play) (pos : Nat) (st : URState),
      seq.drop pos = rest → pos ≤ seq.length →
      URInv tmap minp seq pos st →
      URInv tmap minp seq seq.length
        (List.foldl (urStep tmap minp) st rest) := by
  intro rest
  induction rest with
  | nil =>
    intro pos st hdrop hpos hinv
    have hlen : seq.length ≤ pos := List.drop_eq_nil_iff_le.mp hdrop
    have heq : pos = seq.length := le_antisymm hpos hlen
    subst heq
    simpa using hinv
  | cons pl rest ih =>
    intro pos st hdrop hpos hinv
    have hget : seq.get? pos = some pl := by
      have h0 : (seq.drop pos).get? 0 = some pl := by rw [hdrop]; rfl
      rwa [List.get?_drop, Nat.add_zero] at h0
    have hdrop' : seq.drop (pos + 1) = rest := by
      rw [← List.tail_drop seq pos, hdrop]
      rfl
    have hlt : pos < seq.length := (List.get?_eq_some.mp hget).1
    rw [List.foldl_cons]
    exact ih (pos + 1) _ hdrop' (by omega) (ur_step_inv hw hget hinv)

/-- Every run emitted by `compute_unanswered_runs` on a well-indexed
sequence satisfies `UROut`. -/
theorem ur_runs_out {tmap : List (String × String)} {minp : Int}
    {seq : List Play} (hw : WellIdx seq) :
    ∀ r ∈ compute_unanswered_runs seq tmap minp,
      UROut tmap minp seq r := by
  have hinv0 : URInv tmap minp seq 0 ⟨[], none, none, 0, none⟩ := by
    refine ⟨?_, Or.inl ⟨rfl, rfl⟩⟩
    intro r hr
    cases hr
  have hinv := ur_loop hw seq 0 _ (List.drop_zero seq) (by omega) hinv0
  intro r hr
  cases hlast : seq.getLast? with
  | none =>
    have hrr : compute_unanswered_runs seq tmap minp =
        (List.foldl (urStep tmap minp) ⟨[], none, none, 0, none⟩ seq).runs := by
      simp only [compute_unanswered_runs, hlast]
    rw [hrr] at hr
    exact hinv.1 r hr
  | some last =>
    have hrr : compute_unanswered_runs seq tmap minp =
        (urFlush minp
          (List.foldl (urStep tmap minp) ⟨[], none, none, 0, none⟩ seq)
          last).runs := by
      simp only [compute_unanswered_runs, hlast]
    rw [hrr] at hr
    have hlastget : seq.get? (seq.length - 1) = some last := by
      have h := hlast
      rw [List.getLast?_eq_get?] at h
      exact h
    have hlpos : seq.length - 1 < seq.length :=
      (List.get?_eq_some.mp hlastget).1
    have hlen1 : 1 ≤ seq.length := by omega
    have hidxl : last.index = seq.length - 1 := wellIdx_get? hw hlastget
    set stF := List.foldl (urStep tmap minp) ⟨[], none, none, 0, none⟩ seq
      with hstF
    rcases urFlush_runs minp stF last with heq | ⟨cs, sp, hcs, hsp, hge, heq⟩
    · rw [heq] at hr
      exact hinv.1 r hr
    · rw [heq] at hr
      rcases List.mem_append.mp hr with hold | hnew
      · exact hinv.1 r hold
      · have hrr := List.mem_singleton.mp hnew
        subst hrr
        rcases hinv.2 with ⟨hc, _⟩ | ⟨s0, sp', hcs', hsp', hok0, hspget,
          hsplt, hspsc, hpts⟩
        · rw [hc] at hcs; cases hcs
        have hs : cs = s0 := by
          rw [hcs] at hcs'; exact Option.some_injective _ hcs'
        have hsp2 : sp = sp' := by
          rw [hsp] at hsp'; exact Option.some_injective _ hsp'
        subst hs; subst hsp2
        refine ⟨hge, ?_, ?_, ⟨sp, hspget, hspsc⟩, ⟨last, ?_, Or.inr ?_⟩⟩
        · show stF.current_points = sumIdxLt tmap cs sp.index
            (last.index + 1) seq
          have hround : last.index + 1 = seq.length := by omega
          rw [hround, hpts]
        · show sp.index ≤ last.index
          omega
        · show seq.get? last.index = some last
          rw [hidxl]; exact hlastget
        · show last.index = seq.length - 1
          exact hidxl

theorem optIntOr0_some (m : Int) : optIntOr0 (some m) = m := intOrZero_eq m

/-- Facts established about every emitted net run: threshold, ordered
span over scoring events present in the sequence, and that no interior
scoring event not attributed to the run's side drove the side's margin
(relative to the start anchor) strictly negative. -/
def NROut (tmap : List (String × String)) (minm : Int) (seq : List Play)
    (r : NRun) : Prop :=
  r.net_points ≥ minm ∧
  r.start_index ≤ r.end_index ∧
  (r.side = "home" ∨ r.side = "away") ∧
  (∃ sp, seq.get? r.start_index = some sp ∧ sp.scoring_play = true ∧
    ∀ k plk, r.start_index < k → k < r.end_index →
      seq.get? k = some plk → plk.scoring_play = true →
      tguard tmap plk.team_id ≠ some r.side →
      0 ≤ margin_for_side plk r.side - margin_for_side sp r.side) ∧
  (∃ ep, seq.get? r.end_index = some ep ∧ ep.scoring_play = true)

/-- Invariant of an open net run after `pos` plays of `seq`. -/
def NROpen (tmap : List (String × String)) (seq : List Play) (pos : Nat)
    (st : NRState) : Prop :=
  ∃ s sp, st.current_side = some s ∧ st.start_play = some sp ∧
    (s = "home" ∨ s = "away") ∧ seq.get? sp.index = some sp ∧
    sp.index < pos ∧ sp.scoring_play = true ∧
    st.start_margin_side = some (margin_for_side sp s) ∧
    (∀ k plk, sp.index < k → k < pos → seq.get? k = some plk →
      plk.scoring_play = true → tguard tmap plk.team_id ≠ some s →
      0 ≤ margin_for_side plk s - margin_for_side sp s) ∧
    (∃ lp, st.last_scoring_play = some lp ∧ sp.index ≤ lp.index)

/-- Invariant on the tracked last scoring play. -/
def NRLsp (seq : List Play) (pos : Nat) (st : NRState) : Prop :=
  st.last_scoring_play = none ∨
  ∃ lp, st.last_scoring_play = some lp ∧ seq.get? lp.index = some lp ∧
    lp.scoring_play = true ∧ lp.index < pos

/-- Scan invariant of `compute_net_runs` after `pos` plays. -/
def NRInv (tmap : List (String × String)) (minm : Int) (seq : List Play)
    (pos : Nat) (st : NRState) : Prop :=
  (∀ r ∈ st.runs, NROut tmap minm seq r) ∧
  NRLsp seq pos st ∧
  ((st.current_side = none ∧ st.start_play = none) ∨
    NROpen tmap seq pos st)

theorem netFlush_runs (minm : Int) (st : NRState) (fp : Play) :
    (netFlush minm st fp).runs = st.runs ∨
    (∃ cs sp, st.current_side = some cs ∧ st.start_play = some sp ∧
      st.current_net ≥ minm ∧
      (netFlush minm st fp).runs = st.runs ++
        [{ side := cs, team_id := st.current_team_id,
           net_points := st.current_net, start_index := sp.index,
           end_index := fp.index, start_period := sp.period,
           start_clock := sp.clock, end_period := fp.period,
           end_clock := fp.clock }]) := by
  unfold netFlush
  cases hcs : st.current_side with
  | none => left; rfl
  | some cs =>
    cases hsp : st.start_play with
    | none => left; rfl
    | some sp =>
      by_cases hcond : cs ≠ "" ∧ st.current_net ≥ minm
      · right
        refine ⟨cs, sp, rfl, rfl, hcond.2, ?_⟩
        simp [hcond]
      · left
        simp [hcond]

theorem netFlush_side (minm : Int) (st : NRState) (fp : Play) :
    (netFlush minm st fp).current_side = none := rfl

theorem netFlush_start (minm : Int) (st : NRState) (fp : Play) :
    (netFlush minm st fp).start_play = none := rfl

theorem netFlush_lsp (minm : Int) (st : NRState) (fp : Play) :
    (netFlush minm st fp).last_scoring_play = st.last_scoring_play := rfl

theorem NRLsp_of_eq {seq : List Play} {pos : Nat} {st st' : NRState}
    (h : st'.last_scoring_play = st.last_scoring_play)
    (hl : NRLsp seq pos st) : NRLsp seq pos st' := by
  unfold NRLsp at *
  rw [h]
  exact hl

theorem netStep_not_scoring {tmap : List (String × String)} {minm : Int}
    {st : NRState} {pl : Play} (h : pl.scoring_play = false) :
    netStep tmap minm st pl = st := by
  simp [netStep, h]

theorem netStep_unattrib {tmap : List (String × String)} {minm : Int}
    {st : NRState} {pl : Play} (h : pl.scoring_play = true)
    (hside : tguard tmap pl.team_id = none) :
    netStep tmap minm st pl =
      netFlush minm { st with last_scoring_play := some pl } pl := by
  simp [netStep, h, hside]

theorem netStep_badside {tmap : List (String × String)} {minm : Int}
    {st : NRState} {pl : Play} {s : String} (h : pl.scoring_play = true)
    (hside : tguard tmap pl.team_id = some s)
    (hok : ¬(s = "home" ∨ s = "away")) :
    netStep tmap minm st pl =
      netFlush minm { st with last_scoring_play := some pl } pl := by
  simp only [netStep, h, Bool.not_true, Bool.false_eq_true, if_false, hside]
  rw [if_neg hok]

theorem netStep_open_new {tmap : List (String × String)} {minm : Int}
    {st : NRState} {pl : Play} {s : String} (h : pl.scoring_play = true)
    (hside : tguard tmap pl.team_id = some s)
    (hok : s = "home" ∨ s = "away") (hcs : st.current_side = none) :
    netStep tmap minm st pl =
      { runs := st.runs, current_side := some s,
        current_team_id := pl.team_id, start_play := some pl,
        start_margin_side := some (margin_for_side pl s),
        current_net := 0, last_scoring_play := some pl } := by
  simp only [netStep, h, Bool.not_true, Bool.false_eq_true, if_false, hside,
    hcs]
  rw [if_pos hok]

theorem netStep_same_side {tmap : List (String × String)} {minm : Int}
    {st : NRState} {pl : Play} {s : String} (h : pl.scoring_play = true)
    (hside : tguard tmap pl.team_id = some s)
    (hok : s = "home" ∨ s = "away") {cs : String}
    (hcs : st.current_side = some cs) (heq : s = cs) :
    netStep tmap minm st pl =
      { runs := st.runs, current_side := st.current_side,
        current_team_id := st.current_team_id,
        start_play := st.start_play,
        start_margin_side := st.start_margin_side,
        current_net :=
          margin_for_side pl cs - optIntOr0 st.start_margin_side,
        last_scoring_play := some pl } := by
  simp only [netStep, h, Bool.not_true, Bool.false_eq_true, if_false, hside,
    hcs]
  rw [if_pos hok, if_pos heq]

theorem netStep_opp_keep {tmap : List (String × String)} {minm : Int}
    {st : NRState} {pl : Play} {s : String} (h : pl.scoring_play = true)
    (hside : tguard tmap pl.team_id = some s)
    (hok : s = "home" ∨ s = "away") {cs : String}
    (hcs : st.current_side = some cs) (hne : ¬s = cs)
    (hnn : ¬(margin_for_side pl cs - optIntOr0 st.start_margin_side < 0)) :
    netStep tmap minm st pl =
      { runs := st.runs, current_side := st.current_side,
        current_team_id := st.current_team_id,
        start_play := st.start_play,
        start_margin_side := st.start_margin_side,
        current_net :=
          margin_for_side pl cs - optIntOr0 st.start_margin_side,
        last_scoring_play := some pl } := by
  simp only [netStep, h, Bool.not_true, Bool.false_eq_true, if_false, hside,
    hcs]
  rw [if_pos hok, if_neg hne, if_neg hnn]

theorem netStep_opp_close {tmap : List (String × String)} {minm : Int}
    {st : NRState} {pl : Play} {s : String} (h : pl.scoring_play = true)
    (hside : tguard tmap pl.team_id = some s)
    (hok : s = "home" ∨ s = "away") {cs : String}
    (hcs : st.current_side = some cs) (hne : ¬s = cs)
    (hneg : margin_for_side pl cs - optIntOr0 st.start_margin_side < 0) :
    netStep tmap minm st pl =
      { runs :=
          (netFlush minm { st with last_scoring_play := some pl } pl).runs,
        current_side := some s, current_team_id := pl.team_id,
        start_play := some pl,
        start_margin_side := some (margin_for_side pl s),
        current_net := 0, last_scoring_play := some pl } := by
  simp only [netStep, h, Bool.not_true, Bool.false_eq_true, if_false, hside,
    hcs]
  rw [if_pos hok, if_neg hne, if_pos hneg]
  rfl

/-- Emitted-run facts are preserved by a net-run flush at a scoring play
`fp` whose index is at least the open start and at most the current
position. -/
theorem netFlush_out {tmap : List (String × String)} {minm : Int}
    {seq : List Play} {pos : Nat} {fp : Play}
    (hfpget : seq.get? fp.index = some fp) {st : NRState}
    (hruns : ∀ r ∈ st.runs, NROut tmap minm seq r)
    (hopen : (st.current_side = none ∧ st.start_play = none) ∨
      NROpen tmap seq pos st)
    (hsc : fp.scoring_play = true)
    (hstart : ∀ s sp, st.current_side = some s → st.start_play = some sp →
      sp.index ≤ fp.index)
    (hend : fp.index ≤ pos) :
    ∀ r ∈ (netFlush minm st fp).runs, NROut tmap minm seq r := by
  intro r hr
  rcases netFlush_runs minm st fp with heq | ⟨cs, sp, hcs, hsp, hge, heq⟩
  · rw [heq] at hr
    exact hruns r hr
  · rw [heq] at hr
    rcases List.mem_append.mp hr with hold | hnew
    · exact hruns r hold
    · have hrr := List.mem_singleton.mp hnew
      subst hrr
      rcases hopen with ⟨hc, _⟩ | ⟨s0, sp', hcs', hsp', hok0, hspget,
        hsplt, hspsc, hmargin, hint, _⟩
      · rw [hc] at hcs; cases hcs
      have hs : cs = s0 := by
        rw [hcs] at hcs'; exact Option.some_injective _ hcs'
      have hsp2 : sp = sp' := by
        rw [hsp] at hsp'; exact Option.some_injective _ hsp'
      subst hs; subst hsp2
      refine ⟨hge, hstart cs sp hcs hsp, hok0, ⟨sp, hspget, hspsc, ?_⟩,
        ⟨fp, hfpget, hsc⟩⟩
      intro k plk hk1 hk2 hkget hksc hkside
      have hk1' : sp.index < k := hk1
      have hk2' : k < fp.index := hk2
      exact hint k plk hk1' (by omega) hkget hksc hkside

/-- One step of the net-run scan preserves the invariant. -/
theorem net_step_inv {tmap : List (String × String)} {minm : Int}
    {seq : List Play} {pos : Nat} (hw : WellIdx seq) {pl : Play}
    (hget : seq.get? pos = some pl) {st : NRState}
    (hinv : NRInv tmap minm seq pos st) :
    NRInv tmap minm seq (pos + 1) (netStep tmap minm st pl) := by
  have hidx : pl.index = pos := wellIdx_get? hw hget
  obtain ⟨hruns, hlsp, hrest⟩ := hinv
  by_cases hsc : pl.scoring_play = true
  · -- facts about the state with the last-scoring-play tracker updated
    have hlspL : NRLsp seq (pos + 1)
        { st with last_scoring_play := some pl } :=
      Or.inr ⟨pl, rfl, by rw [hidx]; exact hget, hsc, by omega⟩
    have hrunsL : ∀ r ∈ ({ st with last_scoring_play := some pl } :
        NRState).runs, NROut tmap minm seq r := hruns
    have hopenL : (st.current_side = none ∧ st.start_play = none) ∨
        NROpen tmap seq pos { st with last_scoring_play := some pl } := by
      rcases hrest with hclosed | ⟨s0, sp, hcs', hsp', hok0, hspget, hsplt,
        hspsc, hmargin, hint, _⟩
      · exact Or.inl hclosed
      · exact Or.inr ⟨s0, sp, hcs', hsp', hok0, hspget, hsplt, hspsc,
          hmargin, hint, ⟨pl, rfl, by omega⟩⟩
    cases hside : tguard tmap pl.team_id with
    | none =>
      rw [netStep_unattrib hsc hside]
      refine ⟨netFlush_out (by rw [hidx]; exact hget) hrunsL hopenL hsc
        ?_ (le_of_eq hidx), ?_, Or.inl ⟨rfl, rfl⟩⟩
      · intro s1 sp1 hc1 hs1
        rcases hopenL with ⟨hc, _⟩ | ⟨s0, sp, hcs', hsp', _, _, hsplt, _, _,
          _, _⟩
        · rw [hc] at hc1; cases hc1
        · have : sp1 = sp := by
            rw [hsp'] at hs1; exact (Option.some_injective _ hs1).symm
          subst this
          omega
      · exact NRLsp_of_eq (netFlush_lsp _ _ _) hlspL
    | some s =>
      by_cases hok : s = "home" ∨ s = "away"
      · rcases hrest with ⟨hcs, hstp⟩ | ⟨s0, sp, hcs, hsp', hok0, hspget,
          hsplt, hspsc, hmargin, hint, _⟩
        · rw [netStep_open_new hsc hside hok hcs]
          refine ⟨hruns, Or.inr ⟨pl, rfl, by rw [hidx]; exact hget, hsc,
            by omega⟩, Or.inr ?_⟩
          refine ⟨s, pl, rfl, rfl, hok, by rw [hidx]; exact hget, by omega,
            hsc, rfl, ?_, ⟨pl, rfl, le_rfl⟩⟩
          intro k plk hk1 hk2 _ _ _
          omega
        · by_cases heq : s = s0
          · rw [netStep_same_side hsc hside hok hcs heq]
            refine ⟨hruns, Or.inr ⟨pl, rfl, by rw [hidx]; exact hget, hsc,
              by omega⟩, Or.inr ?_⟩
            refine ⟨s0, sp, hcs, hsp', hok0, hspget, by omega, hspsc,
              hmargin, ?_, ⟨pl, rfl, by omega⟩⟩
            intro k plk hk1 hk2 hkget hksc hkside
            by_cases hkpos : k = pos
            · subst hkpos
              rw [hget] at hkget
              have : plk = pl := (Option.some_injective _ hkget).symm
              subst this
              exact absurd (by rw [hside, heq]) hkside
            · exact hint k plk hk1 (by omega) hkget hksc hkside
          · by_cases hneg :
                margin_for_side pl s0 - optIntOr0 st.start_margin_side < 0
            · rw [netStep_opp_close hsc hside hok hcs heq hneg]
              refine ⟨?_, Or.inr ⟨pl, rfl, by rw [hidx]; exact hget, hsc,
                by omega⟩, Or.inr ?_⟩
              · intro r hr
                refine netFlush_out (by rw [hidx]; exact hget) hrunsL hopenL
                  hsc ?_ (le_of_eq hidx) r hr
                intro s1 sp1 hc1 hs1
                have : sp1 = sp := by
                  rw [show ({ st with last_scoring_play := some pl } :
                      NRState).start_play = st.start_play from rfl, hsp']
                    at hs1
                  exact (Option.some_injective _ hs1).symm
                subst this
                omega
              · refine ⟨s, pl, rfl, rfl, hok, by rw [hidx]; exact hget,
                  by omega, hsc, rfl, ?_, ⟨pl, rfl, le_rfl⟩⟩
                intro k plk hk1 hk2 _ _ _
                rw [hidx] at hk1
                omega
            · rw [netStep_opp_keep hsc hside hok hcs heq hneg]
              refine ⟨hruns, Or.inr ⟨pl, rfl, by rw [hidx]; exact hget, hsc,
                by omega⟩, Or.inr ?_⟩
              refine ⟨s0, sp, hcs, hsp', hok0, hspget, by omega, hspsc,
                hmargin, ?_, ⟨pl, rfl, by omega⟩⟩
              intro k plk hk1 hk2 hkget hksc hkside
              by_cases hkpos : k = pos
              · subst hkpos
                rw [hget] at hkget
                have : plk = pl := (Option.some_injective _ hkget).symm
                subst this
                rw [hmargin, optIntOr0_some] at hneg
                omega
              · exact hint k plk hk1 (by omega) hkget hksc hkside
      · rw [netStep_badside hsc hside hok]
        refine ⟨netFlush_out (by rw [hidx]; exact hget) hruns hopenL hsc
          ?_ (by omega), ?_, Or.inl ⟨rfl, rfl⟩⟩
        · intro s1 sp1 hc1 hs1
          rcases hopenL with ⟨hc, _⟩ | ⟨s0, sp, hcs', hsp', _, _, hsplt, _,
            _, _, _⟩
          · rw [hc] at hc1; cases hc1
          · have : sp1 = sp := by
              rw [hsp'] at hs1; exact (Option.some_injective _ hs1).symm
            subst this
            omega
        · exact NRLsp_of_eq (netFlush_lsp _ _ _) hlspL
  · have hsc' : pl.scoring_play = false := by
      cases h : pl.scoring_play
      · rfl
      · exact absurd h hsc
    rw [netStep_not_scoring hsc']
    refine ⟨hruns, ?_, ?_⟩
    · rcases hlsp with hnone | ⟨lp, h1, h2, h3, h4⟩
      · exact Or.inl hnone
      · exact Or.inr ⟨lp, h1, h2, h3, by omega⟩
    · rcases hrest with hclosed | ⟨s0, sp, hcs', hsp', hok0, hspget, hsplt,
        hspsc, hmargin, hint, hlspo⟩
      · exact Or.inl hclosed
      · refine Or.inr ⟨s0, sp, hcs', hsp', hok0, hspget, by omega, hspsc,
          hmargin, ?_, hlspo⟩
        intro k plk hk1 hk2 hkget hksc hkside
        by_cases hkpos : k = pos
        · subst hkpos
          rw [hget] at hkget
          have : plk = pl := (Option.some_injective _ hkget).symm
          subst this
          rw [hsc'] at hksc
          cases hksc
        · exact hint k plk hk1 (by omega) hkget hksc hkside

/-- Folding the net-run step over the remaining plays carries the
invariant to the end of the sequence. -/
theorem net_loop {tmap : List (String × String)} {minm : Int}
    {seq : List Play} (hw : WellIdx seq) :
    ∀ (rest : List Play) (pos : Nat) (st : NRState),
      seq.drop pos = rest → pos ≤ seq.length →
      NRInv tmap minm seq pos st →
      NRInv tmap minm seq seq.length
        (List.foldl (netStep tmap minm) st rest) := by
  intro rest
  induction rest with
  | nil =>
    intro pos st hdrop hpos hinv
    have hlen : seq.length ≤ pos := List.drop_eq_nil_iff_le.mp hdrop
    have heq : pos = seq.length := le_antisymm hpos hlen
    subst heq
    simpa using hinv
  | cons pl rest ih =>
    intro pos st hdrop hpos hinv
    have hget : seq.get? pos = some pl := by
      have h0 : (seq.drop pos).get? 0 = some pl := by rw [hdrop]; rfl
      rwa [List.get?_drop, Nat.add_zero] at h0
    have hdrop' : seq.drop (pos + 1) = rest := by
      rw [← List.tail_drop seq pos, hdrop]
      rfl
    have hlt : pos < seq.length := (List.get?_eq_some.mp hget).1
    rw [List.foldl_cons]
    exact ih (pos + 1) _ hdrop' (by omega) (net_step_inv hw hget hinv)

/-- Every run emitted by `compute_net_runs` on a well-indexed sequence
satisfies `NROut`. -/
theorem nr_runs_out {tmap : List (String × String)} {minm : Int}
    {seq : List Play} (hw : WellIdx seq) :
    ∀ r ∈ compute_net_runs seq tmap minm, NROut tmap minm seq r := by
  have hinv0 : NRInv tmap minm seq 0 ⟨[], none, none, none, none, 0, none⟩ := by
    refine ⟨?_, Or.inl rfl, Or.inl ⟨rfl, rfl⟩⟩
    intro r hr
    cases hr
  have hinv := net_loop hw seq 0 _ (List.drop_zero seq) (by omega) hinv0
  intro r hr
  set stF := List.foldl (netStep tmap minm)
    (⟨[], none, none, none, none, 0, none⟩ : NRState) seq with hstF
  obtain ⟨hruns, hlsp, hrest⟩ := hinv
  cases hlast : stF.last_scoring_play with
  | none =>
    have hrr : compute_net_runs seq tmap minm = stF.runs := by
      simp only [compute_net_runs, ← hstF, hlast]
    rw [hrr] at hr
    exact hruns r hr
  | some lpv =>
    have hrr : compute_net_runs seq tmap minm =
        (netFlush minm stF lpv).runs := by
      simp only [compute_net_runs, ← hstF, hlast]
    rw [hrr] at hr
    rcases hlsp with hnone | ⟨lpw, hlp1, hlp2, hlp3, hlp4⟩
    · rw [hnone] at hlast; cases hlast
    have hlpeq : lpw = lpv := by
      rw [hlp1] at hlast; exact Option.some_injective _ hlast
    subst hlpeq
    refine netFlush_out hlp2 hruns hrest hlp3 ?_ (by omega) r hr
    intro s1 sp1 hc1 hs1
    rcases hrest with ⟨hc, _⟩ | ⟨s0, sp, hcs', hsp', _, _, _, _, _, _,
      lp2, hlp5, hlp6⟩
    · rw [hc] at hc1; cases hc1
    · have hspe : sp1 = sp := by
        rw [hsp'] at hs1; exact (Option.some_injective _ hs1).symm
      subst hspe
      have hlp2e : lp2 = lpw := by
        rw [hlp5] at hlp1; exact Option.some_injective _ hlp1
      subst hlp2e
      exact hlp6

/-- Cumulative points credited to start side `s` over the first `j`
events of the scanned list (the highlight scan's `team_a_score`). -/
def prefFor (tmap : List (String × String)) (s : String) (L : List Play)
    (j : Nat) : Int :=
  (((L.take j).filter fun e =>
      decide (sideUnguard tmap e.team_id = some s)).map
    fun e => e.score_value).sum

/-- Cumulative points credited against start side `s` over the first
`j` events of the scanned list (the highlight scan's `team_b_score`). -/
def prefAgainst (tmap : List (String × String)) (s : String) (L : List Play)
    (j : Nat) : Int :=
  (((L.take j).filter fun e =>
      decide (sideUnguard tmap e.team_id ≠ some s ∧
        (sideUnguard tmap e.team_id = some "home" ∨
          sideUnguard tmap e.team_id = some "away"))).map
    fun e => e.score_value).sum

theorem prefFor_succ {tmap : List (String × String)} {s : String}
    {L : List Play} {k : Nat} {ev : Play} (hk : L.get? k = some ev) :
    prefFor tmap s L (k + 1) = prefFor tmap s L k +
      (if sideUnguard tmap ev.team_id = some s then ev.score_value
       else 0) := by
  have hk' : L[k]? = some ev := by rw [← List.get?_eq_getElem?]; exact hk
  unfold prefFor
  rw [List.take_succ, hk']
  by_cases hc : sideUnguard tmap ev.team_id = some s
  · simp [List.filter_append, hc]
  · simp [List.filter_append, hc]

theorem prefAgainst_succ {tmap : List (String × String)} {s : String}
    {L : List Play} {k : Nat} {ev : Play} (hk : L.get? k = some ev) :
    prefAgainst tmap s L (k + 1) = prefAgainst tmap s L k +
      (if sideUnguard tmap ev.team_id ≠ some s ∧
          (sideUnguard tmap ev.team_id = some "home" ∨
            sideUnguard tmap ev.team_id = some "away")
       then ev.score_value else 0) := by
  have hk' : L[k]? = some ev := by rw [← List.get?_eq_getElem?]; exact hk
  unfold prefAgainst
  rw [List.take_succ, hk']
  by_cases hc : sideUnguard tmap ev.team_id ≠ some s ∧
      (sideUnguard tmap ev.team_id = some "home" ∨
        sideUnguard tmap ev.team_id = some "away")
  · simp [List.filter_append, hc]
  · simp [List.filter_append, hc]

/-- The updated `team_a_score` of one highlight-scan step. -/
def hlA (tmap : List (String × String)) (s : String) (ev : Play)
    (a : Int) : Int :=
  if sideUnguard tmap ev.team_id = some s then a + intOrZero ev.score_value
  else a

/-- The updated `team_b_score` of one highlight-scan step. -/
def hlB (tmap : List (String × String)) (s : String) (ev : Play)
    (b : Int) : Int :=
  if sideUnguard tmap ev.team_id ≠ some s ∧
      (sideUnguard tmap ev.team_id = some "home" ∨
        sideUnguard tmap ev.team_id = some "away")
  then b + intOrZero ev.score_value else b

/-- The updated `(max_net, best)` pair of one highlight-scan step. -/
def hlMB (minf maxa : Int) (ev : Play) (a' b' m : Int)
    (best : Option (Play × Int × Int)) : Int × Option (Play × Int × Int) :=
  if a' - b' ≥ minf ∧ b' ≤ maxa ∧ a' - b' > m
  then (a' - b', some (ev, a', b')) else (m, best)

theorem hlScan_cons (tmap : List (String × String)) (s : String)
    (minf maxa : Int) (ev : Play) (rest : List Play) (a b m : Int)
    (best : Option (Play × Int × Int)) :
    hlScan tmap s minf maxa (ev :: rest) a b m best =
      (if hlB tmap s ev b > maxa
       then (hlMB minf maxa ev (hlA tmap s ev a) (hlB tmap s ev b) m best).2
       else hlScan tmap s minf maxa rest (hlA tmap s ev a) (hlB tmap s ev b)
         (hlMB minf maxa ev (hlA tmap s ev a) (hlB tmap s ev b) m best).1
         (hlMB minf maxa ev (hlA tmap s ev a) (hlB tmap s ev b) m best).2) :=
  rfl

/-- Invariant of the inner highlight scan, after `k` of the events of
the scanned list `L` have been processed. -/
def HLInv (tmap : List (String × String)) (s : String) (minf maxa : Int)
    (L : List Play) (k : Nat) (a b m : Int)
    (best : Option (Play × Int × Int)) : Prop :=
  a = prefFor tmap s L k ∧ b = prefAgainst tmap s L k ∧
  (∀ j, 1 ≤ j → j ≤ k →
    prefFor tmap s L j - prefAgainst tmap s L j ≥ minf →
    prefAgainst tmap s L j ≤ maxa →
    prefFor tmap s L j - prefAgainst tmap s L j ≤ m) ∧
  (match best with
   | none => m = 0
   | some (e, f, g) =>
     f - g = m ∧ f - g ≥ minf ∧ g ≤ maxa ∧
     ∃ j0, 1 ≤ j0 ∧ j0 ≤ k ∧ L.get? (j0 - 1) = some e ∧
       f = prefFor tmap s L j0 ∧ g = prefAgainst tmap s L j0)

/-- What holds of the best candidate the highlight scan reports for a
scanned list `L`: its thresholds, its position, and that no prefix up
to it has a strictly larger qualifying net. -/
def HLBest (tmap : List (String × String)) (s : String) (minf maxa : Int)
    (L : List Play) (e : Play) (f g : Int) : Prop :=
  f - g ≥ minf ∧ g ≤ maxa ∧
  ∃ j0, 1 ≤ j0 ∧ L.get? (j0 - 1) = some e ∧
    f = prefFor tmap s L j0 ∧ g = prefAgainst tmap s L j0 ∧
    ∀ j, 1 ≤ j → j ≤ j0 →
      prefFor tmap s L j - prefAgainst tmap s L j ≥ minf →
      prefAgainst tmap s L j ≤ maxa →
      prefFor tmap s L j - prefAgainst tmap s L j ≤ f - g

theorem hlInv_best {tmap : List (String × String)} {s : String}
    {minf maxa : Int} {L : List Play} {k : Nat} {a b m : Int}
    {best : Option (Play × Int × Int)}
    (hinv : HLInv tmap s minf maxa L k a b m best) {e : Play} {f g : Int}
    (hbest : best = some (e, f, g)) :
    HLBest tmap s minf maxa L e f g := by
  obtain ⟨_, _, hM, hB⟩ := hinv
  rw [hbest] at hB
  obtain ⟨hm, hf, hg, j0, hj1, hjk, hjget, hjf, hjg⟩ := hB
  refine ⟨hf, hg, j0, hj1, hjget, hjf, hjg, ?_⟩
  intro j h1 h2 h3 h4
  have := hM j h1 (by omega) h3 h4
  omega

/-- One step of the highlight scan preserves the invariant. -/
theorem hl_step_inv {tmap : List (String × String)} {s : String}
    {minf maxa : Int} {L : List Play} {k : Nat} {ev : Play}
    (hk : L.get? k = some ev) {a b m : Int}
    {best : Option (Play × Int × Int)}
    (hinv : HLInv tmap s minf maxa L k a b m best) :
    HLInv tmap s minf maxa L (k + 1) (hlA tmap s ev a) (hlB tmap s ev b)
      (hlMB minf maxa ev (hlA tmap s ev a) (hlB tmap s ev b) m best).1
      (hlMB minf maxa ev (hlA tmap s ev a) (hlB tmap s ev b) m best).2 := by
  obtain ⟨ha, hb, hM, hB⟩ := hinv
  have ha' : hlA tmap s ev a = prefFor tmap s L (k + 1) := by
    unfold hlA
    rw [prefFor_succ hk, intOrZero_eq, ← ha]
    by_cases hc : sideUnguard tmap ev.team_id = some s
    · rw [if_pos hc, if_pos hc]
    · rw [if_neg hc, if_neg hc]; ring
  have hb' : hlB tmap s ev b = prefAgainst tmap s L (k + 1) := by
    unfold hlB
    rw [prefAgainst_succ hk, intOrZero_eq, ← hb]
    by_cases hc : sideUnguard tmap ev.team_id ≠ some s ∧
        (sideUnguard tmap ev.team_id = some "home" ∨
          sideUnguard tmap ev.team_id = some "away")
    · rw [if_pos hc, if_pos hc]
    · rw [if_neg hc, if_neg hc]; ring
  unfold hlMB
  by_cases hq : hlA tmap s ev a - hlB tmap s ev b ≥ minf ∧
      hlB tmap s ev b ≤ maxa ∧ hlA tmap s ev a - hlB tmap s ev b > m
  · rw [if_pos hq]
    refine ⟨ha', hb', ?_, ?_⟩
    · intro j h1 h2 h3 h4
      by_cases hjk : j ≤ k
      · have := hM j h1 hjk h3 h4
        omega
      · have hj : j = k + 1 := by omega
        subst hj
        rw [← ha', ← hb']
    · refine ⟨rfl, hq.1, hq.2.1, k + 1, by omega, le_rfl, ?_, ha', hb'⟩
      simpa using hk
  · rw [if_neg hq]
    refine ⟨ha', hb', ?_, ?_⟩
    · intro j h1 h2 h3 h4
      by_cases hjk : j ≤ k
      · exact hM j h1 hjk h3 h4
      · have hj : j = k + 1 := by omega
        subst hj
        have h3' : hlA tmap s ev a - hlB tmap s ev b ≥ minf := by
          rw [ha', hb']; exact h3
        have h4' : hlB tmap s ev b ≤ maxa := by
          rw [hb']; exact h4
        show prefFor tmap s L (k + 1) - prefAgainst tmap s L (k + 1) ≤ m
        rw [← ha', ← hb']
        by_cases hgt : hlA tmap s ev a - hlB tmap s ev b > m
        · exact absurd ⟨h3', h4', hgt⟩ hq
        · omega
    · cases hbest : best with
      | none =>
        rw [hbest] at hB
        exact hB
      | some efg =>
        obtain ⟨e0, f0, g0⟩ := efg
        rw [hbest] at hB
        obtain ⟨hm, hf, hg, j0, hj1, hjk, hjget, hjf, hjg⟩ := hB
        exact ⟨hm, hf, hg, j0, hj1, by omega, hjget, hjf, hjg⟩

/-- Any reported best candidate of the inner highlight scan, started
from an invariant state, satisfies `HLBest`. -/
theorem hl_scan_loop {tmap : List (String × String)} {s : String}
    {minf maxa : Int} {L : List Play} :
    ∀ (rest : List Play) (k : Nat) (a b m : Int)
      (best : Option (Play × Int × Int)),
      L.drop k = rest →
      HLInv tmap s minf maxa L k a b m best →
      ∀ e f g, hlScan tmap s minf maxa rest a b m best = some (e, f, g) →
        HLBest tmap s minf maxa L e f g := by
  intro rest
  induction rest with
  | nil =>
    intro k a b m best hdrop hinv e f g hres
    exact hlInv_best hinv hres
  | cons ev rest ih =>
    intro k a b m best hdrop hinv e f g hres
    have hk : L.get? k = some ev := by
      have h0 : (L.drop k).get? 0 = some ev := by rw [hdrop]; rfl
      rwa [List.get?_drop, Nat.add_zero] at h0
    have hdrop' : L.drop (k + 1) = rest := by
      rw [← List.tail_drop L k, hdrop]
      rfl
    have hinv' := hl_step_inv hk hinv
    rw [hlScan_cons] at hres
    by_cases hbreak : hlB tmap s ev b > maxa
    · rw [if_pos hbreak] at hres
      exact hlInv_best hinv' hres
    · rw [if_neg hbreak] at hres
      exact ih (k + 1) _ _ _ _ hdrop' hinv' e f g hres

/-- Every run emitted by the outer highlight loop comes from the inner
scan of some suffix of the scanned list, started at that suffix's
head. -/
theorem hlGo_shape {tmap : List (String × String)} {minf maxa : Int} :
    ∀ (L : List Play) (r : HRun), r ∈ hlGo tmap minf maxa L →
      ∃ ev rest s, (ev :: rest) <:+ L ∧
        sideUnguard tmap ev.team_id = some s ∧
        (s = "home" ∨ s = "away") ∧
        ∃ e f g,
          hlScan tmap s minf maxa (ev :: rest) 0 0 0 none = some (e, f, g) ∧
          r = { side := s, team_id := ev.team_id, points_for := f,
                points_against := g, net_points := f - g,
                start_index := ev.index, end_index := e.index,
                start_period := ev.period, start_clock := ev.clock,
                end_period := e.period, end_clock := e.clock } := by
  intro L
  induction L with
  | nil =>
    intro r hr
    cases hr
  | cons ev rest ih =>
    intro r hr
    rw [hlGo] at hr
    rcases List.mem_append.mp hr with hhead | htail
    · cases hsd : sideUnguard tmap ev.team_id with
      | none =>
        simp only [hsd] at hhead
        cases hhead
      | some s =>
        simp only [hsd] at hhead
        by_cases hok : s = "home" ∨ s = "away"
        · rw [if_pos hok] at hhead
          cases hscan : hlScan tmap s minf maxa (ev :: rest) 0 0 0 none with
          | none =>
            simp only [hscan] at hhead
            cases hhead
          | some efg =>
            obtain ⟨e, f, g⟩ := efg
            simp only [hscan] at hhead
            have hrr := List.mem_singleton.mp hhead
            exact ⟨ev, rest, s, List.suffix_rfl, hsd, hok,
              e, f, g, hscan, hrr⟩
        · rw [if_neg hok] at hhead
          cases hhead
    · obtain ⟨ev', rest', s, hsuf, h1, h2, h3⟩ := ih r htail
      exact ⟨ev', rest', s, hsuf.trans (List.suffix_cons ev rest), h1, h2, h3⟩

/-- Well-indexed sequences have strictly increasing `index` fields. -/
theorem wellIdx_pairwise {seq : List Play} (hw : WellIdx seq) :
    seq.Pairwise fun x y => x.index < y.index := by
  rw [List.pairwise_iff_get]
  intro i j hij
  have hi := wellIdx_get? hw (List.get?_eq_get i.2)
  have hj := wellIdx_get? hw (List.get?_eq_get j.2)
  rw [hi, hj]
  exact hij

/-- Whether the forward scan, run over `l` with `team_b_score` starting
at `b`, blows the opponent-point window somewhere inside `l`. -/
def brokeAt (tmap : List (String × String)) (s : String) (maxa : Int) :
    List Play → Int → Bool
  | [], _ => false
  | ev :: rest, b =>
    let ev_side := sideUnguard tmap ev.team_id
    let pts := intOrZero ev.score_value
    let b' :=
      if ev_side ≠ some s ∧ (ev_side = some "home" ∨ ev_side = some "away")
      then b + pts else b
    if b' > maxa then true else brokeAt tmap s maxa rest b'

theorem brokeAt_cons (tmap : List (String × String)) (s : String)
    (maxa : Int) (ev : Play) (rest : List Play) (b : Int) :
    brokeAt tmap s maxa (ev :: rest) b =
      (if hlB tmap s ev b > maxa then true
       else brokeAt tmap s maxa rest (hlB tmap s ev b)) := rfl

/-- Once the opponent-point ceiling has been exceeded within `l`, the
highlight scan's result does not depend on anything after `l`. -/
theorem hlScan_break {tmap : List (String × String)} {s : String}
    {minf maxa : Int} :
    ∀ (l l₂ : List Play) (a b m : Int) (best : Option (Play × Int × Int)),
      brokeAt tmap s maxa l b = true →
      hlScan tmap s minf maxa (l ++ l₂) a b m best =
        hlScan tmap s minf maxa l a b m best := by
  intro l
  induction l with
  | nil =>
    intro l₂ a b m best hbr
    cases hbr
  | cons ev rest ih =>
    intro l₂ a b m best hbr
    rw [brokeAt_cons] at hbr
    rw [List.cons_append, hlScan_cons, hlScan_cons]
    by_cases hb : hlB tmap s ev b > maxa
    · rw [if_pos hb, if_pos hb]
    · rw [if_neg hb, if_neg hb]
      rw [if_neg hb] at hbr
      exact ih l₂ _ _ _ _ hbr

/-- A scoring event with an unresolvable side is transparent to the
highlight scan: it changes no accumulator and does not stop the
forward window (as long as the window is still alive and the current
net is not a new qualifying best, which holds at every reachable scan
state). -/
theorem hlScan_skip_unattrib {tmap : List (String × String)} {s : String}
    {minf maxa : Int} {ev : Play} {rest : List Play} {a b m : Int}
    {best : Option (Play × Int × Int)}
    (hs : s = "home" ∨ s = "away")
    (hun : sideUnguard tmap ev.team_id ≠ some "home" ∧
      sideUnguard tmap ev.team_id ≠ some "away")
    (hnoq : ¬(a - b ≥ minf ∧ b ≤ maxa ∧ a - b > m))
    (hb : ¬(b > maxa)) :
    hlScan tmap s minf maxa (ev :: rest) a b m best =
      hlScan tmap s minf maxa rest a b m best := by
  have hnb : ¬(sideUnguard tmap ev.team_id ≠ some s ∧
      (sideUnguard tmap ev.team_id = some "home" ∨
        sideUnguard tmap ev.team_id = some "away")) := by
    rintro ⟨_, h | h⟩
    · exact hun.1 h
    · exact hun.2 h
  have hBeq : hlB tmap s ev b = b := by
    unfold hlB
    rw [if_neg hnb]
  have hAeq : hlA tmap s ev a = a := by
    unfold hlA
    rw [if_neg ?_]
    intro hcon
    rcases hs with h | h
    · rw [h] at hcon; exact hun.1 hcon
    · rw [h] at hcon; exact hun.2 hcon
  rw [hlScan_cons, hBeq, hAeq]
  unfold hlMB
  rw [if_neg hnoq, if_neg hb]

/-- Full characterization of an emitted highlight run: it arises from
the inner scan of a suffix `L` of the scoring-event list, starting at
`L`'s head; its thresholds hold at the recorded end, and no prefix of
the scan up to that end has a strictly larger qualifying net. -/
def HLRunSpec (tmap : List (String × String)) (minf maxa : Int)
    (seq : List Play) (r : HRun) : Prop :=
  ∃ L ev, L <:+ (seq.filter fun pl => pl.scoring_play) ∧
    L.get? 0 = some ev ∧
    sideUnguard tmap ev.team_id = some r.side ∧
    (r.side = "home" ∨ r.side = "away") ∧
    r.team_id = ev.team_id ∧ r.start_index = ev.index ∧
    r.net_points = r.points_for - r.points_against ∧
    r.points_for - r.points_against ≥ minf ∧ r.points_against ≤ maxa ∧
    ∃ e j0, 1 ≤ j0 ∧ L.get? (j0 - 1) = some e ∧ r.end_index = e.index ∧
      r.points_for = prefFor tmap r.side L j0 ∧
      r.points_against = prefAgainst tmap r.side L j0 ∧
      ∀ j, 1 ≤ j → j ≤ j0 →
        prefFor tmap r.side L j - prefAgainst tmap r.side L j ≥ minf →
        prefAgainst tmap r.side L j ≤ maxa →
        prefFor tmap r.side L j - prefAgainst tmap r.side L j ≤
          r.points_for - r.points_against

theorem hl_runs_spec {tmap : List (String × String)} {minf maxa : Int}
    {seq : List Play} :
    ∀ r ∈ compute_highlight_runs seq tmap minf maxa,
      HLRunSpec tmap minf maxa seq r := by
  intro r hr
  rw [compute_highlight_runs] at hr
  obtain ⟨ev, rest, s, hsuf, hsd, hok, e, f, g, hscan, hrr⟩ :=
    hlGo_shape _ r hr
  subst hrr
  have hinv0 : HLInv tmap s minf maxa (ev :: rest) 0 0 0 0 none := by
    refine ⟨rfl, rfl, ?_, rfl⟩
    intro j h1 h2 _ _
    omega
  have hbest := hl_scan_loop (L := ev :: rest) (ev :: rest) 0 0 0 0 none
    (List.drop_zero _) hinv0 e f g hscan
  obtain ⟨hf, hg, j0, hj1, hjget, hjf, hjg, hmax⟩ := hbest
  exact ⟨ev :: rest, ev, hsuf, rfl, hsd, hok, rfl, rfl, rfl, hf, hg,
    e, j0, hj1, hjget, rfl, hjf, hjg, hmax⟩

theorem pairwise_get?_le {L : List Play}
    (hp : L.Pairwise fun x y => x.index < y.index) {i j : Nat} {x y : Play}
    (hx : L.get? i = some x) (hy : L.get? j = some y) (hij : i ≤ j) :
    x.index ≤ y.index := by
  rcases Nat.eq_or_lt_of_le hij with he | hl
  · subst he
    rw [hx] at hy
    rw [Option.some_injective _ hy]
  · have hxl : i < L.length := (List.get?_eq_some.mp hx).1
    have hyl : j < L.length := (List.get?_eq_some.mp hy).1
    have hgx : L.get ⟨i, hxl⟩ = x := (List.get?_eq_some.mp hx).2
    have hgy : L.get ⟨j, hyl⟩ = y := (List.get?_eq_some.mp hy).2
    have := List.pairwise_iff_get.mp hp ⟨i, hxl⟩ ⟨j, hyl⟩ hl
    rw [hgx, hgy] at this
    omega

/-- The index/endpoint facts of claim C3 for highlight runs. -/
theorem hl_runs_idx {tmap : List (String × String)} {minf maxa : Int}
    {seq : List Play} (hw : WellIdx seq) :
    ∀ r ∈ compute_highlight_runs seq tmap minf maxa,
      r.start_index ≤ r.end_index ∧
      (∃ sp, seq.get? r.start_index = some sp ∧ sp.scoring_play = true) ∧
      (∃ ep, seq.get? r.end_index = some ep ∧ ep.scoring_play = true) := by
  intro r hr
  obtain ⟨L, ev, hsuf, hev0, _, _, _, hstart, _, _, _, e, j0, hj1, hjget,
    hend, _, _, _⟩ := hl_runs_spec r hr
  have hpE : (seq.filter fun pl => pl.scoring_play).Pairwise
      fun x y => x.index < y.index :=
    (wellIdx_pairwise hw).sublist (List.filter_sublist seq)
  have hpL : L.Pairwise fun x y => x.index < y.index :=
    hpE.sublist hsuf.sublist
  have hmemL : ∀ {x : Play}, x ∈ L →
      seq.get? x.index = some x ∧ x.scoring_play = true := by
    intro x hx
    have hxE : x ∈ seq.filter fun pl => pl.scoring_play :=
      hsuf.sublist.mem hx
    have hxseq : x ∈ seq := List.mem_of_mem_filter hxE
    have hxsc : x.scoring_play = true := by
      have := List.of_mem_filter hxE
      simpa using this
    exact ⟨wellIdx_mem hw hxseq, hxsc⟩
  have hevm := hmemL (List.get?_mem hev0)
  have hem := hmemL (List.get?_mem hjget)
  refine ⟨?_, ⟨ev, by rw [hstart]; exact hevm.1, hevm.2⟩,
    ⟨e, by rw [hend]; exact hem.1, hem.2⟩⟩
  rw [hstart, hend]
  exact pairwise_get?_le hpL hev0 hjget (by omega)

/-- A concrete scoring play used by the example games below. -/
def exPlay (i : Nat) (tid : Option String) (sc : Bool) (v hs asc : Int) :
    Play :=
  { index := i, period := some 1, clock := "", home_score := hs,
    away_score := asc, team_id := tid, scoring_play := sc, score_value := v,
    text := .null, athlete_ids := [], play_type_id := .null,
    play_type_text := .null, shooting_play := false, points_attempted := 0,
    short_desc := .null }

/-- Example team map: team 1 is home, team 2 is away. -/
def exTmap : List (String × String) := [("1", "home"), ("2", "away")]

/-- Scenario sequence: HOME +2, HOME +2, HOME +3. -/
def exSeqC7 : List Play :=
  [exPlay 0 (some "1") true 2 2 0, exPlay 1 (some "1") true 2 4 0,
   exPlay 2 (some "1") true 3 7 0]

/-- The unanswered run emitted on `exSeqC7`. -/
def wrunC7 : URun :=
  ⟨"home", some "1", 7, 0, 2, some 1, "", some 1, ""⟩

/-- A home 7-0 run followed by a final play that is not a scoring play:
the closing flush records the non-scoring play's index as the run's
end. -/
def exSeqC3 : List Play :=
  [exPlay 0 (some "1") true 3 3 0, exPlay 1 (some "1") true 2 5 0,
   exPlay 2 (some "1") true 2 7 0, exPlay 3 none false 0 7 0]

/-- The unanswered run emitted on `exSeqC3`; its end index 3 is the
non-scoring final play. -/
def wrunC3 : URun :=
  ⟨"home", some "1", 7, 0, 3, some 1, "", some 1, ""⟩

/-- Claim C3 is refuted on `exSeqC3`: the unanswered scan emits a run
whose end index references the final play of the sequence, which is not
a scoring event. -/
theorem claim_C3_counterexample :
    compute_unanswered_runs exSeqC3 exTmap 7 = [wrunC3] ∧
    wrunC3.end_index = 3 ∧
    (∀ pl ∈ exSeqC3, pl.index = 3 → pl.scoring_play = false) := by
  decide

/-- Claim C3 (amended): on a well-indexed sequence every emitted run of
the three detectors has `start_index ≤ end_index` and both indices
reference events present in the input; for the net and highlight scans
both endpoints are scoring events, while for the unanswered scan the
start is a scoring event and the end is a scoring event except possibly
for a run closed at the end of the sequence, whose recorded end is the
final play's index even when that play is not a scoring event. -/
theorem claim_C3 (tmap : List (String × String)) (seq : List Play)
    (hw : WellIdx seq) :
    (∀ r ∈ compute_unanswered_runs seq tmap 7,
      r.start_index ≤ r.end_index ∧
      (∃ sp, seq.get? r.start_index = some sp ∧ sp.scoring_play = true) ∧
      (∃ ep, seq.get? r.end_index = some ep ∧
        (ep.scoring_play = true ∨ r.end_index = seq.length - 1))) ∧
    (∀ r ∈ compute_net_runs seq tmap 8,
      r.start_index ≤ r.end_index ∧
      (∃ sp, seq.get? r.start_index = some sp ∧ sp.scoring_play = true) ∧
      (∃ ep, seq.get? r.end_index = some ep ∧ ep.scoring_play = true)) ∧
    (∀ r ∈ compute_highlight_runs seq tmap 8 5,
      r.start_index ≤ r.end_index ∧
      (∃ sp, seq.get? r.start_index = some sp ∧ sp.scoring_play = true) ∧
      (∃ ep, seq.get? r.end_index = some ep ∧ ep.scoring_play = true)) := by
  refine ⟨?_, ?_, hl_runs_idx hw⟩
  · intro r hr
    have h := ur_runs_out hw r hr
    exact ⟨h.2.2.1, h.2.2.2.1, h.2.2.2.2⟩
  · intro r hr
    obtain ⟨hge, hle, hok, ⟨sp, hspget, hspsc, _⟩, hend⟩ :=
      nr_runs_out hw r hr
    exact ⟨hle, ⟨sp, hspget, hspsc⟩, hend⟩

theorem claim_C3_witness :
    wrunC3.start_index ≤ wrunC3.end_index ∧
    (∃ sp, exSeqC3.get? wrunC3.start_index = some sp ∧
      sp.scoring_play = true) ∧
    (∃ ep, exSeqC3.get? wrunC3.end_index = some ep ∧
      (ep.scoring_play = true ∨ wrunC3.end_index = exSeqC3.length - 1)) :=
  (claim_C3 exTmap exSeqC3 (by decide)).1 wrunC3 (by decide)

/-- Claim C7: every emitted unanswered run has at least 7 points (the
threshold is inclusive, as the exactly-7 witness below shows) and
replaying the run's inclusive index range against the original
sequence, summing only the run side's scoring-event point values,
reproduces the recorded points total. -/
theorem claim_C7 (tmap : List (String × String)) (seq : List Play)
    (hw : WellIdx seq) :
    ∀ r ∈ compute_unanswered_runs seq tmap 7,
      r.points ≥ 7 ∧
      r.points = replayPoints tmap r.side r.start_index r.end_index seq := by
  intro r hr
  have h := ur_runs_out hw r hr
  refine ⟨h.1, ?_⟩
  rw [replayPoints_eq]
  exact h.2.1

theorem claim_C7_witness :
    wrunC7.points ≥ 7 ∧
    wrunC7.points =
      replayPoints exTmap wrunC7.side wrunC7.start_index wrunC7.end_index
        exSeqC7 :=
  claim_C7 exTmap exSeqC7 (by decide) wrunC7 (by decide)

/-- Interruption sequence: HOME +2, unattributable team +2, HOME +2,
HOME +2, HOME +2 (all scoring). The highlight window from index 0
reaches net 8 at index 4, spanning the unattributable event. -/
def exSeqC1 : List Play :=
  [exPlay 0 (some "1") true 2 2 0, exPlay 1 (some "9") true 2 2 0,
   exPlay 2 (some "1") true 2 4 0, exPlay 3 (some "1") true 2 6 0,
   exPlay 4 (some "1") true 2 8 0]

/-- The highlight run emitted on `exSeqC1`. -/
def wrunC1 : HRun :=
  ⟨"home", some "1", 8, 0, 8, 0, 4, some 1, "", some 1, ""⟩

/-- Claim C8: every emitted highlight run satisfies both thresholds at
its recorded end; no earlier end point of the same forward scan has a
strictly larger qualifying net (`HLRunSpec`); and the forward scan
never looks past the point where cumulative points-against first
exceeds the ceiling. -/
theorem claim_C8 (tmap : List (String × String)) (seq : List Play) :
    (∀ r ∈ compute_highlight_runs seq tmap 8 5,
      r.points_for - r.points_against ≥ 8 ∧ r.points_against ≤ 5 ∧
      HLRunSpec tmap 8 5 seq r) ∧
    (∀ (s : String) (l l₂ : List Play) (a b m : Int)
      (best : Option (Play × Int × Int)),
      brokeAt tmap s 5 l b = true →
      hlScan tmap s 8 5 (l ++ l₂) a b m best =
        hlScan tmap s 8 5 l a b m best) := by
  refine ⟨?_, ?_⟩
  · intro r hr
    have h := hl_runs_spec r hr
    have h2 := h
    obtain ⟨L, ev, h1, hg0, hsd, hok, hteam, hsi, hnet, hf, hg, _⟩ := h2
    exact ⟨hf, hg, h⟩
  · intro s l l₂ a b m best hbr
    exact hlScan_break l l₂ a b m best hbr

/-- A single away 6-point event: the scan window is blown immediately. -/
def exBrk : List Play := [exPlay 0 (some "2") true 6 0 6]

theorem claim_C8_witness :
    (wrunC1.points_for - wrunC1.points_against ≥ 8 ∧
      wrunC1.points_against ≤ 5 ∧ HLRunSpec exTmap 8 5 exSeqC1 wrunC1) ∧
    hlScan exTmap "home" 8 5 (exBrk ++ [exPlay 9 (some "1") true 2 20 6])
        0 0 0 none =
      hlScan exTmap "home" 8 5 exBrk 0 0 0 none :=
  ⟨(claim_C8 exTmap exSeqC1).1 wrunC1 (by decide),
   (claim_C8 exTmap exSeqC1).2 "home" exBrk
     [exPlay 9 (some "1") true 2 20 6] 0 0 0 none (by decide)⟩

theorem urFlush_points (minp : Int) (st : URState) (lp : Play) :
    (urFlush minp st lp).current_points = 0 := rfl

theorem netFlush_net (minm : Int) (st : NRState) (fp : Play) :
    (netFlush minm st fp).current_net = 0 := rfl

theorem urStep_unresolved {tmap : List (String × String)} {minp : Int}
    {st : URState} {pl : Play} (h : pl.scoring_play = true)
    (hun : ∀ s, tguard tmap pl.team_id = some s →
      ¬(s = "home" ∨ s = "away")) :
    urStep tmap minp st pl = urFlush minp st pl := by
  cases hs : tguard tmap pl.team_id with
  | none => exact urStep_unattrib h hs
  | some s => exact urStep_badside h hs (hun s hs)

theorem netStep_unresolved {tmap : List (String × String)} {minm : Int}
    {st : NRState} {pl : Play} (h : pl.scoring_play = true)
    (hun : ∀ s, tguard tmap pl.team_id = some s →
      ¬(s = "home" ∨ s = "away")) :
    netStep tmap minm st pl =
      netFlush minm { st with last_scoring_play := some pl } pl := by
  cases hs : tguard tmap pl.team_id with
  | none => exact netStep_unattrib h hs
  | some s => exact netStep_badside h hs (hun s hs)

/-- Claim C1 is refuted on `exSeqC1`: the highlight scan emits a run
(indices 0 to 4) that spans the unattributable scoring event at
index 1 — the event does not terminate the window. -/
theorem claim_C1_counterexample :
    compute_highlight_runs exSeqC1 exTmap 8 5 = [wrunC1] ∧
    (∃ pl ∈ exSeqC1, pl.index = 1 ∧ pl.scoring_play = true ∧
      sideUnguard exTmap pl.team_id = none) ∧
    wrunC1.start_index < 1 ∧ 1 < wrunC1.end_index := by
  decide

/-- Claim C1 (amended): in the unanswered and net scans a scoring event
whose side cannot be resolved flushes any in-progress run — the state
is reset and the run list grows by at most one run, which ends at the
unresolvable event's index and whose points were accumulated before it;
in the highlight scan such an event is transparent: it changes no
accumulator and the forward window continues past it. -/
theorem claim_C1 :
    (∀ (tmap : List (String × String)) (minp : Int) (st : URState)
      (pl : Play), pl.scoring_play = true →
      (∀ s, tguard tmap pl.team_id = some s →
        ¬(s = "home" ∨ s = "away")) →
      urStep tmap minp st pl = urFlush minp st pl ∧
      (urFlush minp st pl).current_side = none ∧
      (urFlush minp st pl).start_play = none ∧
      (urFlush minp st pl).current_points = 0 ∧
      ((urFlush minp st pl).runs = st.runs ∨
        ∃ cs sp, st.current_side = some cs ∧ st.start_play = some sp ∧
          st.current_points ≥ minp ∧
          (urFlush minp st pl).runs = st.runs ++
            [{ side := cs, team_id := st.current_team_id,
               points := st.current_points, start_index := sp.index,
               end_index := pl.index, start_period := sp.period,
               start_clock := sp.clock, end_period := pl.period,
               end_clock := pl.clock }])) ∧
    (∀ (tmap : List (String × String)) (minm : Int) (st : NRState)
      (pl : Play), pl.scoring_play = true →
      (∀ s, tguard tmap pl.team_id = some s →
        ¬(s = "home" ∨ s = "away")) →
      netStep tmap minm st pl =
        netFlush minm { st with last_scoring_play := some pl } pl ∧
      (netFlush minm { st with last_scoring_play := some pl }
        pl).current_side = none ∧
      (netFlush minm { st with last_scoring_play := some pl }
        pl).start_play = none ∧
      (netFlush minm { st with last_scoring_play := some pl }
        pl).current_net = 0 ∧
      ((netFlush minm { st with last_scoring_play := some pl }
          pl).runs = st.runs ∨
        ∃ cs sp, st.current_side = some cs ∧ st.start_play = some sp ∧
          st.current_net ≥ minm ∧
          (netFlush minm { st with last_scoring_play := some pl }
            pl).runs = st.runs ++
            [{ side := cs, team_id := st.current_team_id,
               net_points := st.current_net, start_index := sp.index,
               end_index := pl.index, start_period := sp.period,
               start_clock := sp.clock, end_period := pl.period,
               end_clock := pl.clock }])) ∧
    (∀ (tmap : List (String × String)) (s : String) (minf maxa : Int)
      (ev : Play) (rest : List Play) (a b m : Int)
      (best : Option (Play × Int × Int)),
      (s = "home" ∨ s = "away") →
      sideUnguard tmap ev.team_id ≠ some "home" →
      sideUnguard tmap ev.team_id ≠ some "away" →
      ¬(a - b ≥ minf ∧ b ≤ maxa ∧ a - b > m) → ¬(b > maxa) →
      hlScan tmap s minf maxa (ev :: rest) a b m best =
        hlScan tmap s minf maxa rest a b m best) := by
  refine ⟨?_, ?_, ?_⟩
  · intro tmap minp st pl h hun
    exact ⟨urStep_unresolved h hun, rfl, rfl, rfl, urFlush_runs minp st pl⟩
  · intro tmap minm st pl h hun
    exact ⟨netStep_unresolved h hun, rfl, rfl, rfl,
      netFlush_runs minm { st with last_scoring_play := some pl } pl⟩
  · intro tmap s minf maxa ev rest a b m best hs h1 h2 hnoq hb
    exact hlScan_skip_unattrib hs ⟨h1, h2⟩ hnoq hb

/-- A state with an open 7-point home run, used to witness claim C1. -/
def wstC1 : URState :=
  ⟨[], some "home", some "1", 7, some (exPlay 0 (some "1") true 3 3 0)⟩

/-- An unattributable scoring play, used to witness claim C1. -/
def wplC1 : Play := exPlay 1 (some "9") true 2 3 0

theorem claim_C1_witness :
    (urStep exTmap 7 wstC1 wplC1 = urFlush 7 wstC1 wplC1 ∧
      (urFlush 7 wstC1 wplC1).current_side = none ∧
      (urFlush 7 wstC1 wplC1).start_play = none ∧
      (urFlush 7 wstC1 wplC1).current_points = 0 ∧
      ((urFlush 7 wstC1 wplC1).runs = wstC1.runs ∨
        ∃ cs sp, wstC1.current_side = some cs ∧
          wstC1.start_play = some sp ∧ wstC1.current_points ≥ 7 ∧
          (urFlush 7 wstC1 wplC1).runs = wstC1.runs ++
            [{ side := cs, team_id := wstC1.current_team_id,
               points := wstC1.current_points, start_index := sp.index,
               end_index := wplC1.index, start_period := sp.period,
               start_clock := sp.clock, end_period := wplC1.period,
               end_clock := wplC1.clock }])) ∧
    hlScan exTmap "home" 8 5 (wplC1 :: []) 2 0 0 none =
      hlScan exTmap "home" 8 5 [] 2 0 0 none := by
  constructor
  · exact claim_C1.1 exTmap 7 wstC1 wplC1 (by decide)
      (by intro s h; simp [wplC1, exPlay, tguard, lookupS, lookupW] at h)
  · exact claim_C1.2.2 exTmap "home" 8 5 wplC1 [] 2 0 0 none
      (by decide) (by decide) (by decide) (by decide) (by decide)

/-- Net-run sequence in which the away basket at index 2 erases the
home side's relative net to exactly zero, yet the run stays open and is
emitted spanning it. -/
def exSeqC2 : List Play :=
  [exPlay 0 (some "1") true 2 2 0, exPlay 1 (some "1") true 8 10 0,
   exPlay 2 (some "2") true 8 10 8, exPlay 3 (some "1") true 8 18 8]

/-- The net run emitted on `exSeqC2`. -/
def wrunC2 : NRun :=
  ⟨"home", some "1", 8, 0, 3, some 1, "", some 1, ""⟩

/-- Claim C2 is refuted on `exSeqC2`: the emitted net run's span
contains (strictly before its end) an opposing scoring event at which
the owning side's margin relative to the start anchor is zero — the
margin was driven to zero without closing the run. -/
theorem claim_C2_counterexample :
    compute_net_runs exSeqC2 exTmap 8 = [wrunC2] ∧
    (∃ p2, exSeqC2.get? 2 = some p2 ∧ p2.scoring_play = true ∧
      tguard exTmap p2.team_id = some "away" ∧
      wrunC2.side = "home" ∧
      wrunC2.start_index < 2 ∧ 2 < wrunC2.end_index ∧
      ∃ p0, exSeqC2.get? wrunC2.start_index = some p0 ∧
        margin_for_side p2 wrunC2.side -
          margin_for_side p0 wrunC2.side ≤ 0) := by
  decide

/-- Claim C2 (amended): every emitted net run has `net_points ≥ 8`, and
at no scoring event strictly inside the run's span that is not
attributed to the run's side was the owning side's margin relative to
the start anchor driven strictly below zero; an opposing score that
leaves the relative net at zero or above keeps the run open with the
updated net, and one that would make it strictly negative closes the
run at that event and opens a new run for the opponent anchored at the
opponent's current margin. -/
theorem claim_C2 (tmap : List (String × String)) (seq : List Play)
    (hw : WellIdx seq) :
    (∀ r ∈ compute_net_runs seq tmap 8,
      r.net_points ≥ 8 ∧
      ∃ sp, seq.get? r.start_index = some sp ∧
        ∀ k plk, r.start_index < k → k < r.end_index →
          seq.get? k = some plk → plk.scoring_play = true →
          tguard tmap plk.team_id ≠ some r.side →
          0 ≤ margin_for_side plk r.side - margin_for_side sp r.side) ∧
    (∀ (st : NRState) (pl : Play) (s cs : String),
      pl.scoring_play = true → tguard tmap pl.team_id = some s →
      (s = "home" ∨ s = "away") → st.current_side = some cs → ¬s = cs →
      (¬(margin_for_side pl cs - optIntOr0 st.start_margin_side < 0) →
        netStep tmap 8 st pl =
          { runs := st.runs, current_side := st.current_side,
            current_team_id := st.current_team_id,
            start_play := st.start_play,
            start_margin_side := st.start_margin_side,
            current_net :=
              margin_for_side pl cs - optIntOr0 st.start_margin_side,
            last_scoring_play := some pl }) ∧
      (margin_for_side pl cs - optIntOr0 st.start_margin_side < 0 →
        netStep tmap 8 st pl =
          { runs := (netFlush 8 { st with last_scoring_play := some pl }
              pl).runs,
            current_side := some s, current_team_id := pl.team_id,
            start_play := some pl,
            start_margin_side := some (margin_for_side pl s),
            current_net := 0, last_scoring_play := some pl })) := by
  constructor
  · intro r hr
    obtain ⟨hge, _, _, ⟨sp, hspget, _, hint⟩, _⟩ := nr_runs_out hw r hr
    exact ⟨hge, sp, hspget, hint⟩
  · intro st pl s cs h hside hok hcs hne
    exact ⟨fun hnn => netStep_opp_keep h hside hok hcs hne hnn,
      fun hneg => netStep_opp_close h hside hok hcs hne hneg⟩

/-- A state with an open home net run anchored at margin 2, used to
witness claim C2's step behaviour. -/
def wstC2 : NRState :=
  ⟨[], some "home", some "1", some (exPlay 0 (some "1") true 2 2 0),
    some 2, 8, some (exPlay 1 (some "1") true 8 10 0)⟩

/-- An away basket leaving the home relative net at zero. -/
def wplC2 : Play := exPlay 2 (some "2") true 8 10 8

theorem claim_C2_witness :
    (wrunC2.net_points ≥ 8 ∧
      ∃ sp, exSeqC2.get? wrunC2.start_index = some sp ∧
        ∀ k plk, wrunC2.start_index < k → k < wrunC2.end_index →
          exSeqC2.get? k = some plk → plk.scoring_play = true →
          tguard exTmap plk.team_id ≠ some wrunC2.side →
          0 ≤ margin_for_side plk wrunC2.side -
            margin_for_side sp wrunC2.side) ∧
    netStep exTmap 8 wstC2 wplC2 =
      { runs := wstC2.runs, current_side := wstC2.current_side,
        current_team_id := wstC2.current_team_id,
        start_play := wstC2.start_play,
        start_margin_side := wstC2.start_margin_side,
        current_net := margin_for_side wplC2 "home" -
          optIntOr0 wstC2.start_margin_side,
        last_scoring_play := some wplC2 } := by
  constructor
  · exact (claim_C2 exTmap exSeqC2 (by decide)).1 wrunC2 (by decide)
  · exact ((claim_C2 exTmap exSeqC2 (by decide)).2 wstC2 wplC2 "away"
      "home" (by decide) (by decide) (by decide) (by decide)
      (by decide)).1 (by decide)

/-- Claim C10: a net run opens anchored at the cumulative margin after
its opening event with a running net of zero (the opening basket's own
points are excluded), a same-side score updates the net to the margin
at that event minus the anchor, and every emitted net run has
`net_points ≥ 8` — at least 8 net points beyond the opening basket. -/
theorem claim_C10 (tmap : List (String × String)) :
    (∀ (st : NRState) (pl : Play) (s : String),
      pl.scoring_play = true → tguard tmap pl.team_id = some s →
      (s = "home" ∨ s = "away") → st.current_side = none →
      netStep tmap 8 st pl =
        { runs := st.runs, current_side := some s,
          current_team_id := pl.team_id, start_play := some pl,
          start_margin_side := some (margin_for_side pl s),
          current_net := 0, last_scoring_play := some pl }) ∧
    (∀ (st : NRState) (pl : Play) (s cs : String) (m0 : Int),
      pl.scoring_play = true → tguard tmap pl.team_id = some s →
      (s = "home" ∨ s = "away") → st.current_side = some cs → s = cs →
      st.start_margin_side = some m0 →
      netStep tmap 8 st pl =
        { runs := st.runs, current_side := st.current_side,
          current_team_id := st.current_team_id,
          start_play := st.start_play,
          start_margin_side := st.start_margin_side,
          current_net := margin_for_side pl cs - m0,
          last_scoring_play := some pl }) ∧
    (∀ (seq : List Play), WellIdx seq →
      ∀ r ∈ compute_net_runs seq tmap 8, r.net_points ≥ 8) := by
  refine ⟨?_, ?_, ?_⟩
  · intro st pl s h hside hok hcs
    exact netStep_open_new h hside hok hcs
  · intro st pl s cs m0 h hside hok hcs heq hm
    rw [netStep_same_side h hside hok hcs heq, hm, optIntOr0_some]
  · intro seq hw r hr
    exact (nr_runs_out hw r hr).1

/-- A closed state and home basket used to witness claim C10. -/
def wstC10 : NRState := ⟨[], none, none, none, none, 0, none⟩

/-- The opening home basket for the C10 witness. -/
def wplC10 : Play := exPlay 0 (some "1") true 2 2 0

theorem claim_C10_witness :
    (netStep exTmap 8 wstC10 wplC10 =
      { runs := wstC10.runs, current_side := some "home",
        current_team_id := wplC10.team_id, start_play := some wplC10,
        start_margin_side := some (margin_for_side wplC10 "home"),
        current_net := 0, last_scoring_play := some wplC10 }) ∧
    wrunC2.net_points ≥ 8 := by
  constructor
  · exact (claim_C10 exTmap).1 wstC10 wplC10 "home" (by decide)
      (by decide) (by decide) (by decide)
  · exact (claim_C10 exTmap).2.2 exSeqC2 (by decide) wrunC2 (by decide)

theorem bind_ok_inv {α β : Type} {x : Except PyErr α}
    {f : α → Except PyErr β} {b : β} (h : (x >>= f) = .ok b) :
    ∃ a, x = .ok a ∧ f a = .ok b := by
  cases x with
  | error e => simp [Bind.bind, Except.bind] at h
  | ok a => exact ⟨a, rfl, h⟩

theorem exists_ok_bind {α β : Type} {x : Except PyErr α}
    {f : α → Except PyErr β} (hx : ∃ a, x = .ok a)
    (hf : ∀ a, x = .ok a → ∃ b, f a = .ok b) :
    ∃ b, (x >>= f) = .ok b := by
  obtain ⟨a, ha⟩ := hx
  obtain ⟨b, hb⟩ := hf a ha
  subst ha
  exact ⟨b, hb⟩

/-- Whether a value is a dict. -/
def isObj : JValue → Bool
  | .obj _ => true
  | _ => false

theorem jGet_ok {v : JValue} (h : isObj v = true) (k : String) :
    ∃ w, jGet v k = .ok w := by
  cases v <;> first | exact ⟨_, rfl⟩ | simp [isObj] at h

/-- The `team` value a competitor entry yields:
`c.get("team", {}) or {}`. -/
def teamValOf (kvs : List (String × JValue)) : JValue :=
  pyOr ((objGet? kvs "team").getD (.obj [])) (.obj [])

/-- Shape of one competitor entry under which `_build_team_maps`
processes it without raising: a dict whose effective team value is a
dict and whose `homeAway` value is hashable. -/
def CompetitorShape (c : JValue) : Bool :=
  match c with
  | .obj kvs => isObj (teamValOf kvs) && pyHashable (objGetN kvs "homeAway")
  | _ => false

/-- Shape of a summary under which `_build_team_maps` only consults
well-formed structures: header a dict (or absent), competitions a list,
its first entry a dict, competitors a list of shaped entries. -/
def TeamsShape (summary : JValue) : Bool :=
  match summary with
  | .obj skvs =>
    match (objGet? skvs "header").getD (.obj []) with
    | .obj hkvs =>
      match pyOr (objGetN hkvs "competitions") (.arr []) with
      | .arr [] => true
      | .arr (comp :: _) =>
        match comp with
        | .obj ckvs =>
          match pyOr (objGetN ckvs "competitors") (.arr []) with
          | .arr cs => cs.all CompetitorShape
          | _ => false
        | _ => false
      | _ => false
    | _ => false
  | _ => false

/-- The effective competitions value of a summary. -/
def competitionsOf (summary : JValue) : JValue :=
  match summary with
  | .obj skvs =>
    match (objGet? skvs "header").getD (.obj []) with
    | .obj hkvs => pyOr (objGetN hkvs "competitions") (.arr [])
    | _ => .null
  | _ => .null

theorem tidOfRaw_ne {v : JValue} (h : ¬v = .null) :
    tidOfRaw v = some (pyStr v) := by
  cases v <;> first | exact absurd rfl h | rfl

theorem teamStep_ok {c : JValue} (hc : CompetitorShape c = true)
    (maps : List (JValue × TeamEntry) × List (String × JValue)) :
    ∃ m, teamStep maps c = .ok m := by
  cases c with
  | obj kvs =>
    simp only [CompetitorShape, Bool.and_eq_true] at hc
    obtain ⟨hteam, hhash⟩ := hc
    cases htv : teamValOf kvs with
    | obj tkvs =>
      have h0 : pyOr ((objGet? kvs "team").getD (.obj []))
          (.obj []) = .obj tkvs := htv
      by_cases hnull : objGetN tkvs "id" = .null
      · refine ⟨maps, ?_⟩
        simp only [teamStep, jGet, jGetD, Bind.bind, Except.bind, h0, hnull,
          tidOfRaw]
        rfl
      · have htid : tidOfRaw (objGetN tkvs "id") =
            some (pyStr (objGetN tkvs "id")) := tidOfRaw_ne hnull
        by_cases hcond : pyStr (objGetN tkvs "id") = "" ∨
            !truthy (objGetN kvs "homeAway")
        · refine ⟨maps, ?_⟩
          simp only [teamStep, jGet, jGetD, Bind.bind, Except.bind, h0, htid]
          rw [if_pos hcond]
          rfl
        · have hh : ¬((!pyHashable (objGetN kvs "homeAway")) = true) := by
            rw [hhash]
            simp
          have hres : teamStep maps (.obj kvs) =
              .ok (setW jvEq maps.1 (objGetN kvs "homeAway")
                  ⟨pyStr (objGetN tkvs "id"),
                    pyOr (objGetN tkvs "shortDisplayName")
                      (objGetN tkvs "displayName")⟩,
                setS maps.2 (pyStr (objGetN tkvs "id"))
                  (objGetN kvs "homeAway")) := by
            simp only [teamStep, jGet, jGetD, Bind.bind, Except.bind, h0,
              htid]
            rw [if_neg hcond, if_neg hh]
            rfl
          exact ⟨_, hres⟩
    | null => rw [htv] at hteam; simp [isObj] at hteam
    | bool b => rw [htv] at hteam; simp [isObj] at hteam
    | int n => rw [htv] at hteam; simp [isObj] at hteam
    | str s => rw [htv] at hteam; simp [isObj] at hteam
    | arr xs => rw [htv] at hteam; simp [isObj] at hteam
  | null => simp [CompetitorShape] at hc
  | bool b => simp [CompetitorShape] at hc
  | int n => simp [CompetitorShape] at hc
  | str s => simp [CompetitorShape] at hc
  | arr xs => simp [CompetitorShape] at hc

theorem foldlM_teamStep_ok :
    ∀ (cs : List JValue), (∀ c ∈ cs, CompetitorShape c = true) →
    ∀ maps, ∃ m, List.foldlM teamStep maps cs = .ok m := by
  intro cs
  induction cs with
  | nil =>
    intro _ maps
    exact ⟨maps, rfl⟩
  | cons c cs ih =>
    intro hall maps
    obtain ⟨m1, hm1⟩ := teamStep_ok (hall c (by simp)) maps
    obtain ⟨m2, hm2⟩ := ih (fun x hx => hall x (by simp [hx])) m1
    refine ⟨m2, ?_⟩
    rw [List.foldlM_cons, hm1]
    simpa [Bind.bind, Except.bind] using hm2

/-- The skip behaviour of one competitor step: an entry whose team id
is missing or empty, or whose role tag is falsy, is skipped and the
maps are returned unchanged (no error). -/
theorem teamStep_skip {kvs tkvs : List (String × JValue)}
    (hteam : teamValOf kvs = .obj tkvs)
    (hskip : objGetN tkvs "id" = .null ∨ pyStr (objGetN tkvs "id") = "" ∨
      truthy (objGetN kvs "homeAway") = false)
    (maps : List (JValue × TeamEntry) × List (String × JValue)) :
    teamStep maps (.obj kvs) = .ok maps := by
  have h0 : pyOr ((objGet? kvs "team").getD (.obj []))
      (.obj []) = .obj tkvs := hteam
  by_cases hnull : objGetN tkvs "id" = .null
  · simp only [teamStep, jGet, jGetD, Bind.bind, Except.bind, h0, hnull,
      tidOfRaw]
    rfl
  · have htid : tidOfRaw (objGetN tkvs "id") =
        some (pyStr (objGetN tkvs "id")) := tidOfRaw_ne hnull
    simp only [teamStep, jGet, jGetD, Bind.bind, Except.bind, h0, htid]
    rcases hskip with h | h | h
    · exact absurd h hnull
    · rw [if_pos (Or.inl h)]
      rfl
    · rw [if_pos (Or.inr (by rw [h]; rfl))]
      rfl

/-- On a well-shaped summary, `_build_team_maps` raises (RuntimeError)
exactly when the effective competitions list is empty; otherwise it
succeeds — regardless of the competitor count or of competitors missing
ids or role tags. -/
theorem buildTeamMaps_shape {summary : JValue}
    (hs : TeamsShape summary = true) :
    (¬truthy (competitionsOf summary) = true ∧
      buildTeamMaps summary = .error .runtimeError) ∨
    (truthy (competitionsOf summary) = true ∧
      ∃ m, buildTeamMaps summary = .ok m) := by
  cases summary with
  | obj skvs =>
    simp only [TeamsShape] at hs
    cases hh : (objGet? skvs "header").getD (.obj []) with
    | obj hkvs =>
      simp only [hh] at hs
      cases hcomps : pyOr (objGetN hkvs "competitions") (.arr []) with
      | arr comps =>
        simp only [hcomps] at hs
        have hcompof : competitionsOf (.obj skvs) = .arr comps := by
          simp only [competitionsOf, hh, hcomps]
        cases comps with
        | nil =>
          left
          refine ⟨by rw [hcompof]; decide, ?_⟩
          simp only [buildTeamMaps, jGet, jGetD, Bind.bind, Except.bind,
            hh, hcomps]
          rfl
        | cons comp rest =>
          cases comp with
          | obj ckvs =>
            cases hcs : pyOr (objGetN ckvs "competitors") (.arr []) with
            | arr cs =>
              simp only [hcs] at hs
              right
              refine ⟨by rw [hcompof]; rfl, ?_⟩
              obtain ⟨m, hm⟩ := foldlM_teamStep_ok cs
                (fun c hc => List.all_eq_true.mp hs c hc) ([], [])
              refine ⟨⟨m.1, m.2, .obj ckvs⟩, ?_⟩
              simp only [buildTeamMaps, jGet, jGetD, Bind.bind, Except.bind,
                hh, hcomps, pyIndex0, hcs, iterElems, hm]
              rfl
            | null => simp only [hcs] at hs; simp at hs
            | bool b => simp only [hcs] at hs; simp at hs
            | int n => simp only [hcs] at hs; simp at hs
            | str s => simp only [hcs] at hs; simp at hs
            | obj os => simp only [hcs] at hs; simp at hs
          | null => exact Bool.noConfusion hs
          | bool b => exact Bool.noConfusion hs
          | int n => exact Bool.noConfusion hs
          | str s => exact Bool.noConfusion hs
          | arr xs => exact Bool.noConfusion hs
      | null => simp only [hcomps] at hs; simp at hs
      | bool b => simp only [hcomps] at hs; simp at hs
      | int n => simp only [hcomps] at hs; simp at hs
      | str s => simp only [hcomps] at hs; simp at hs
      | obj os => simp only [hcomps] at hs; simp at hs
    | null => simp only [hh] at hs; simp at hs
    | bool b => simp only [hh] at hs; simp at hs
    | int n => simp only [hh] at hs; simp at hs
    | str s => simp only [hh] at hs; simp at hs
    | arr xs => simp only [hh] at hs; simp at hs
  | null => simp [TeamsShape] at hs
  | bool b => simp [TeamsShape] at hs
  | int n => simp [TeamsShape] at hs
  | str s => simp [TeamsShape] at hs
  | arr xs => simp [TeamsShape] at hs

/-- Summary with two competitors, the second lacking its `homeAway`
role tag. -/
def exSummary4 : JValue :=
  .obj [("header", .obj [("competitions", .arr [
    .obj [("competitors", .arr [
      .obj [("homeAway", .str "home"), ("team", .obj [("id", .str "1")])],
      .obj [("team", .obj [("id", .str "2")])]
    ])]
  ])])]

/-- The team maps `_build_team_maps` actually returns on `exSummary4`:
a partial mapping covering only the first competitor, with no error. -/
def exMaps4 : TeamMaps :=
  { teams_by_side := [(.str "home", ⟨"1", .null⟩)],
    team_id_to_side := [("1", .str "home")],
    competition := .obj [("competitors", .arr [
      .obj [("homeAway", .str "home"), ("team", .obj [("id", .str "1")])],
      .obj [("team", .obj [("id", .str "2")])]
    ])] }

/-- Claim C4 is refuted on `exSummary4`: a competitor entry lacks its
role tag, yet `_build_team_maps` returns a successful, partially
resolved mapping instead of an error result. -/
theorem claim_C4_counterexample :
    buildTeamMaps exSummary4 = .ok exMaps4 ∧
    exMaps4.team_id_to_side = [("1", .str "home")] := ⟨rfl, rfl⟩

/-- Claim C4 (amended): `_build_team_maps` fails only when the
competitions list is missing or empty (RuntimeError); on any well-shaped
summary with a nonempty competitions list it succeeds regardless of the
competitor count, and a competitor entry lacking a team id or a truthy
role tag is silently skipped, leaving the maps unchanged — a partial
mapping is returned rather than an error. -/
theorem claim_C4 :
    (∀ summary : JValue, TeamsShape summary = true →
      (¬truthy (competitionsOf summary) = true ∧
        buildTeamMaps summary = .error .runtimeError) ∨
      (truthy (competitionsOf summary) = true ∧
        ∃ m, buildTeamMaps summary = .ok m)) ∧
    (∀ (maps : List (JValue × TeamEntry) × List (String × JValue))
      (kvs tkvs : List (String × JValue)),
      teamValOf kvs = .obj tkvs →
      (objGetN tkvs "id" = .null ∨ pyStr (objGetN tkvs "id") = "" ∨
        truthy (objGetN kvs "homeAway") = false) →
      teamStep maps (.obj kvs) = .ok maps) :=
  ⟨fun _ hs => buildTeamMaps_shape hs,
   fun maps _ _ hteam hskip => teamStep_skip hteam hskip maps⟩

/-- The second competitor of `exSummary4` (no role tag). -/
def exC2kvs : List (String × JValue) := [("team", .obj [("id", .str "2")])]

theorem claim_C4_witness :
    ((¬truthy (competitionsOf exSummary4) = true ∧
      buildTeamMaps exSummary4 = .error .runtimeError) ∨
     (truthy (competitionsOf exSummary4) = true ∧
      ∃ m, buildTeamMaps exSummary4 = .ok m)) ∧
    teamStep ([], []) (.obj exC2kvs) = .ok ([], []) :=
  ⟨claim_C4.1 exSummary4 (by decide),
   claim_C4.2 ([], []) exC2kvs [("id", .str "2")] rfl
     (Or.inr (Or.inr rfl))⟩

/-- Characterization of the typed fields of a normalized play, for any
raw play record (a dict) that the normalizer accepts. -/
theorem processPlay_fields {lastH lastA : Int} {idx : Nat}
    {kvs : List (String × JValue)} {pl : Play}
    (h : processPlay lastH lastA idx (.obj kvs) = .ok pl) :
    pl.index = idx ∧
    pl.home_score = (toIntPy (objGetN kvs "homeScore")).getD lastH ∧
    pl.away_score = (toIntPy (objGetN kvs "awayScore")).getD lastA ∧
    pl.scoring_play = truthy (objGetN kvs "scoringPlay") ∧
    pl.points_attempted = (toIntPy (objGetN kvs "pointsAttempted")).getD 0 ∧
    pl.score_value =
      (if truthy (objGetN kvs "scoringPlay") then
        (match toIntPy (objGetN kvs "scoreValue") with
         | some v => v
         | none =>
           max ((toIntPy (objGetN kvs "homeScore")).getD lastH - lastH)
             (max ((toIntPy (objGetN kvs "awayScore")).getD lastA - lastA)
               0))
       else 0) := by
  simp only [processPlay, jGet, Bind.bind, Except.bind] at h
  obtain ⟨periodVal, hpv, h⟩ := bind_ok_inv h
  obtain ⟨clockDV, hcd, h⟩ := bind_ok_inv h
  obtain ⟨teamIdRaw, htr, h⟩ := bind_ok_inv h
  obtain ⟨parts, hpa, h⟩ := bind_ok_inv h
  obtain ⟨ptid, hpt, h⟩ := bind_ok_inv h
  obtain ⟨pttext, htt, h⟩ := bind_ok_inv h
  obtain ⟨period, hpd, h⟩ := bind_ok_inv h
  have hpl := (Except.ok.inj h).symm
  subst hpl
  refine ⟨rfl, rfl, rfl, rfl, rfl, rfl⟩

/-- Raw play record for the C9 witness: non-numeric `scoreValue` and
`awayScore` value and no `scoreValue` key alongside a numeric
`homeScore`. -/
def exC9kvs : List (String × JValue) :=
  [("scoringPlay", .bool true), ("homeScore", .int 5),
   ("awayScore", .arr [])]

/-- The normalized play `processPlay 3 0 0 (.obj exC9kvs)` produces. -/
def exC9pl : Play :=
  { index := 0, period := none, clock := "", home_score := 5, away_score := 0,
    team_id := none, scoring_play := true, score_value := 2,
    text := .str "", athlete_ids := [], play_type_id := .null,
    play_type_text := .null, shooting_play := false, points_attempted := 0,
    short_desc := .str "" }

/-- C9: in the play normalizer, for every play whose explicit
`scoreValue` field is absent or non-numeric, the point value is
recovered as `max(0, homeScoreAfter - previousHomeScore,
awayScoreAfter - previousAwayScore)` and is `0` for non-scoring plays;
and a non-numeric cumulative `homeScore`/`awayScore` field defaults to
the previous cumulative score for that side rather than raising. -/
theorem claim_C9 {lastH lastA : Int} {idx : Nat}
    {kvs : List (String × JValue)} {pl : Play}
    (h : processPlay lastH lastA idx (.obj kvs) = .ok pl) :
    (toIntPy (objGetN kvs "scoreValue") = none →
      pl.score_value =
        if pl.scoring_play then
          max 0 (max (pl.home_score - lastH) (pl.away_score - lastA))
        else 0) ∧
    (toIntPy (objGetN kvs "homeScore") = none → pl.home_score = lastH) ∧
    (toIntPy (objGetN kvs "awayScore") = none → pl.away_score = lastA) := by
  obtain ⟨_, hh, ha, hsc, _, hsv⟩ := processPlay_fields h
  refine ⟨fun hnone => ?_, fun hnone => by rw [hh, hnone]; rfl,
    fun hnone => by rw [ha, hnone]; rfl⟩
  rw [hsv, hnone, hsc]
  by_cases hb : truthy (objGetN kvs "scoringPlay") = true
  · rw [if_pos hb, if_pos hb, hh, ha]
    show max ((toIntPy (objGetN kvs "homeScore")).getD lastH - lastH)
        (max ((toIntPy (objGetN kvs "awayScore")).getD lastA - lastA) 0) =
      max 0 (max ((toIntPy (objGetN kvs "homeScore")).getD lastH - lastH)
        ((toIntPy (objGetN kvs "awayScore")).getD lastA - lastA))
    omega
  · rw [if_neg hb, if_neg hb]

theorem claim_C9_witness :
    processPlay 3 0 0 (.obj exC9kvs) = .ok exC9pl ∧
    toIntPy (objGetN exC9kvs "scoreValue") = none ∧
    toIntPy (objGetN exC9kvs "awayScore") = none ∧
    exC9pl.score_value =
      (if exC9pl.scoring_play then
        max 0 (max (exC9pl.home_score - 3) (exC9pl.away_score - 0))
      else 0) ∧
    exC9pl.away_score = 0 := by
  have hok : processPlay 3 0 0 (.obj exC9kvs) = .ok exC9pl := by rfl
  have hc := claim_C9 hok
  exact ⟨hok, rfl, rfl, hc.1 rfl, hc.2.2 rfl⟩

/-- Whether a value is a list. -/
def isArr : JValue → Bool
  | .arr _ => true
  | _ => false

/-- Shape accepted where the script writes `(x or {}).get(...)`: a falsy
value is replaced by `{}`, so the lookup succeeds exactly when the value
is falsy or already a dict. -/
def ObjOrFalsy (v : JValue) : Bool := !truthy v || isObj v

/-- Shape accepted where the script writes `for _ in (x or [])` and we
only certify lists: a falsy value is replaced by `[]`. -/
def ArrOrFalsy (v : JValue) : Bool := !truthy v || isArr v

/-- Shape accepted by the unprotected period coercion
`int(period) if period is not None else None`. -/
def NumShape : JValue → Bool
  | .null => true
  | .bool _ => true
  | .int _ => true
  | .str s => (s.trim.toInt?).isSome
  | .arr _ => false
  | .obj _ => false

/-- The value fed to the period coercion by `_extract_basic_play_sequence`:
`(p.get("period") or {}).get("number")`. -/
def periodNumberOf (kvs : List (String × JValue)) : JValue :=
  match pyOr (objGetN kvs "period") (.obj []) with
  | .obj pkvs => objGetN pkvs "number"
  | _ => .null

/-- A raw play record that `_extract_basic_play_sequence` normalizes
without raising: a dict whose nested-lookup fields are dicts or falsy,
whose participant fields are lists or falsy, and whose period number is
`None` or int-coercible. -/
def WellShapedPlay (p : JValue) : Bool :=
  match p with
  | .obj kvs =>
    ObjOrFalsy (objGetN kvs "period") &&
    NumShape (periodNumberOf kvs) &&
    ObjOrFalsy (objGetN kvs "clock") &&
    ObjOrFalsy (objGetN kvs "team") &&
    ObjOrFalsy (objGetN kvs "type") &&
    ArrOrFalsy (objGetN kvs "participants") &&
    ArrOrFalsy (objGetN kvs "athletesInvolved")
  | _ => false

/-- A summary whose effective plays list is a list of well-shaped raw
plays. -/
def WellShapedSummary (summary : JValue) : Bool :=
  match summary with
  | .obj skvs =>
    (match pyOr (objGetN skvs "plays") (.arr []) with
     | .arr ps => ps.all WellShapedPlay
     | _ => false)
  | _ => false

theorem pyOr_obj {v : JValue} (h : ObjOrFalsy v = true) :
    isObj (pyOr v (.obj [])) = true := by
  unfold pyOr
  by_cases ht : truthy v = true
  · rw [if_pos ht]
    simp only [ObjOrFalsy, ht, Bool.not_true, Bool.false_or] at h
    exact h
  · rw [if_neg ht]
    rfl

theorem arrOrFalsy_pyOr {a b : JValue} (ha : ArrOrFalsy a = true)
    (hb : ArrOrFalsy b = true) : ArrOrFalsy (pyOr a b) = true := by
  unfold pyOr
  by_cases h1 : truthy a = true
  · rw [if_pos h1]; exact ha
  · rw [if_neg h1]; exact hb

theorem iterElems_arrOrFalsy {v : JValue} (h : ArrOrFalsy v = true) :
    ∃ xs, iterElems (pyOr v (.arr [])) = .ok xs := by
  unfold pyOr
  by_cases ht : truthy v = true
  · rw [if_pos ht]
    simp only [ArrOrFalsy, ht, Bool.not_true, Bool.false_or] at h
    cases v with
    | arr xs => exact ⟨xs, rfl⟩
    | null => simp [isArr] at h
    | bool b => simp [isArr] at h
    | int n => simp [isArr] at h
    | str s => simp [isArr] at h
    | obj kvs => simp [isArr] at h
  · rw [if_neg ht]
    exact ⟨[], rfl⟩

theorem periodCoerce_ok {v : JValue} (h : NumShape v = true) :
    ∃ o, periodCoerce v = .ok o := by
  cases v with
  | null => exact ⟨none, rfl⟩
  | bool b => exact ⟨some (if b then 1 else 0), rfl⟩
  | int n => exact ⟨some n, rfl⟩
  | str s =>
    simp only [NumShape] at h
    obtain ⟨n, hn⟩ := Option.isSome_iff_exists.mp h
    refine ⟨some n, ?_⟩
    simp only [periodCoerce, toIntPy, hn]
    rfl
  | arr xs => simp [NumShape] at h
  | obj kvs => simp [NumShape] at h

theorem processPlay_ok (lastH lastA : Int) (idx : Nat) {p : JValue}
    (hp : WellShapedPlay p = true) :
    ∃ pl, processPlay lastH lastA idx p = .ok pl := by
  cases p with
  | obj kvs =>
    simp only [WellShapedPlay, Bool.and_eq_true] at hp
    obtain ⟨⟨⟨⟨⟨⟨hper, hnum⟩, hclock⟩, hteam⟩, htype⟩, hpart⟩, hainv⟩ := hp
    simp only [processPlay, jGet, Bind.bind, Except.bind]
    refine exists_ok_bind (jGet_ok (pyOr_obj hper) _) fun periodVal hpv => ?_
    refine exists_ok_bind (jGet_ok (pyOr_obj hclock) _) fun clockDV hcd => ?_
    refine exists_ok_bind (jGet_ok (pyOr_obj hteam) _) fun teamIdRaw htr => ?_
    refine exists_ok_bind
      (iterElems_arrOrFalsy (arrOrFalsy_pyOr hpart hainv)) fun parts hpa => ?_
    refine exists_ok_bind (jGet_ok (pyOr_obj htype) _) fun ptid hpt => ?_
    refine exists_ok_bind (jGet_ok (pyOr_obj htype) _) fun pttext htt => ?_
    refine exists_ok_bind ?_ fun period hpd => ⟨_, rfl⟩
    cases hpo : pyOr (objGetN kvs "period") (.obj [])
    case obj pkvs =>
      rw [hpo] at hpv
      simp only [jGet] at hpv
      have hv := Except.ok.inj hpv
      subst hv
      apply periodCoerce_ok
      unfold periodNumberOf at hnum
      rw [hpo] at hnum
      exact hnum
    all_goals {
      have hio := pyOr_obj hper
      rw [hpo] at hio
      simp [isObj] at hio }
  | null => simp [WellShapedPlay] at hp
  | bool b => simp [WellShapedPlay] at hp
  | int n => simp [WellShapedPlay] at hp
  | str s => simp [WellShapedPlay] at hp
  | arr xs => simp [WellShapedPlay] at hp

theorem extractStep_ok {p : JValue} (hp : WellShapedPlay p = true)
    (st : Int × Int × Nat × List Play) :
    ∃ st2, extractStep st p = .ok st2 := by
  obtain ⟨lastH, lastA, idx, acc⟩ := st
  obtain ⟨pl, hpl⟩ := processPlay_ok lastH lastA idx hp
  refine ⟨(pl.home_score, pl.away_score, idx + 1, acc ++ [pl]), ?_⟩
  simp only [extractStep, Bind.bind, Except.bind, hpl]
  rfl

theorem foldlM_extractStep_ok :
    ∀ (ps : List JValue), (∀ p ∈ ps, WellShapedPlay p = true) →
    ∀ st, ∃ out, List.foldlM extractStep st ps = .ok out := by
  intro ps
  induction ps with
  | nil =>
    intro _ st
    exact ⟨st, rfl⟩
  | cons p ps ih =>
    intro hall st
    obtain ⟨st1, h1⟩ := extractStep_ok (hall p (by simp)) st
    obtain ⟨out, h2⟩ := ih (fun x hx => hall x (by simp [hx])) st1
    refine ⟨out, ?_⟩
    rw [List.foldlM_cons, h1]
    simpa [Bind.bind, Except.bind] using h2

theorem extract_ok {summary : JValue}
    (hs : WellShapedSummary summary = true) :
    ∃ seq, extractBasicPlaySequence summary = .ok seq := by
  cases summary with
  | obj skvs =>
    simp only [WellShapedSummary] at hs
    simp only [extractBasicPlaySequence, jGet, Bind.bind, Except.bind]
    cases hpo : pyOr (objGetN skvs "plays") (.arr []) with
    | arr ps =>
      rw [hpo] at hs
      have hall : ps.all WellShapedPlay = true := hs
      obtain ⟨out, hout⟩ := foldlM_extractStep_ok ps
        (fun p hp => List.all_eq_true.mp hall p hp) (0, 0, 0, [])
      refine ⟨out.2.2.2, ?_⟩
      simp only [iterElems, Except.bind]
      rw [hout]
      rfl
    | null =>
      rw [hpo] at hs
      exact Bool.noConfusion hs
    | bool b =>
      rw [hpo] at hs
      exact Bool.noConfusion hs
    | int n =>
      rw [hpo] at hs
      exact Bool.noConfusion hs
    | str st =>
      rw [hpo] at hs
      exact Bool.noConfusion hs
    | obj pkvs =>
      rw [hpo] at hs
      exact Bool.noConfusion hs
  | null => simp [WellShapedSummary] at hs
  | bool b => simp [WellShapedSummary] at hs
  | int n => simp [WellShapedSummary] at hs
  | str st => simp [WellShapedSummary] at hs
  | arr xs => simp [WellShapedSummary] at hs

/-- Counterexample to C6 as stated: the play normalizer is not total
over arbitrary loosely-typed play records — a play whose `period` field
is a truthy non-dict (here the string `"2"`) raises an AttributeError
at `(p.get("period") or {}).get("number")` instead of treating the
field as absent. -/
theorem claim_C6_counterexample :
    extractBasicPlaySequence
      (.obj [("plays", .arr [.obj [("period", .str "2")]])]) =
    .error .attributeError := by rfl

/-- C6 (amended): the play normalizer never raises on well-shaped raw
plays (nested-lookup fields dict-or-falsy, participant fields
list-or-falsy, period number None-or-coercible), and on any play it
does normalize, missing or malformed numeric fields default — points
attempted to 0, cumulative scores to the previous score, and a falsy
`scoringPlay` forces a zero point value. -/
theorem claim_C6 :
    (∀ summary, WellShapedSummary summary = true →
      ∃ seq, extractBasicPlaySequence summary = .ok seq) ∧
    (∀ (lastH lastA : Int) (idx : Nat) (kvs : List (String × JValue))
        (pl : Play), processPlay lastH lastA idx (.obj kvs) = .ok pl →
      (toIntPy (objGetN kvs "pointsAttempted") = none →
        pl.points_attempted = 0) ∧
      (toIntPy (objGetN kvs "homeScore") = none → pl.home_score = lastH) ∧
      (toIntPy (objGetN kvs "awayScore") = none → pl.away_score = lastA) ∧
      (truthy (objGetN kvs "scoringPlay") = false →
        pl.scoring_play = false ∧ pl.score_value = 0)) := by
  refine ⟨fun summary hs => extract_ok hs, ?_⟩
  intro lastH lastA idx kvs pl h
  obtain ⟨_, hh, ha, hsc, hpa, hsv⟩ := processPlay_fields h
  refine ⟨fun hnone => by rw [hpa, hnone]; rfl,
    fun hnone => by rw [hh, hnone]; rfl,
    fun hnone => by rw [ha, hnone]; rfl,
    fun hfalse => ⟨by rw [hsc, hfalse], by rw [hsv, hfalse]; rfl⟩⟩

/-- The normalized play produced from the empty raw record `{}`. -/
def exC6pl : Play :=
  { index := 0, period := none, clock := "", home_score := 0, away_score := 0,
    team_id := none, scoring_play := false, score_value := 0,
    text := .str "", athlete_ids := [], play_type_id := .null,
    play_type_text := .null, shooting_play := false, points_attempted := 0,
    short_desc := .str "" }

theorem claim_C6_witness :
    (WellShapedSummary (.obj [("plays", .arr [.obj []])]) = true ∧
      ∃ seq, extractBasicPlaySequence (.obj [("plays", .arr [.obj []])]) =
        .ok seq) ∧
    processPlay 0 0 0 (.obj []) = .ok exC6pl ∧
    exC6pl.points_attempted = 0 ∧ exC6pl.home_score = 0 ∧
    exC6pl.scoring_play = false ∧ exC6pl.score_value = 0 := by
  have hok : processPlay 0 0 0 (.obj []) = .ok exC6pl := by rfl
  have hc := claim_C6.2 0 0 0 [] exC6pl hok
  exact ⟨⟨by decide, claim_C6.1 _ (by decide)⟩, hok, hc.1 rfl, hc.2.1 rfl,
    (hc.2.2.2 rfl).1, (hc.2.2.2 rfl).2⟩

theorem withSide_falsy {α : Type} {s? : Option String}
    (h : sideTruthy s? = false) (st : α) (f : String → α) :
    withSide s? st f = st := by
  cases s? with
  | none => rfl
  | some s =>
    have hs : s = "" := by simpa [sideTruthy] using h
    simp [withSide, hs]

theorem getD_one_mem {xs : List String} (h : xs.length > 1) :
    xs.getD 1 "" ∈ xs := by
  cases xs with
  | nil => simp at h
  | cons a t =>
    cases t with
    | nil => simp at h
    | cons b t2 =>
      show b ∈ a :: b :: t2
      exact List.mem_cons_of_mem a (List.mem_cons_self b t2)

theorem rebSection_qt {tmap : List (String × String)}
    {pbi : List (String × PMeta)} {period : Int} {ttl : String}
    {pl : Play} {sft : Option String} (st : QT × QP)
    (hsft : sideTruthy sft = false)
    (hath : ∀ aid ∈ pl.athlete_ids,
      sideTruthy (resolveSide pbi tmap aid) = false) :
    (rebSection tmap pbi period ttl pl sft st).1 = st.1 := by
  simp only [rebSection]
  by_cases hg : pyInStr "rebound" ttl = true
  · rw [if_pos hg]
    cases hids : pl.athlete_ids with
    | nil =>
      show withSide sft st.1 _ = st.1
      exact withSide_falsy hsft _ _
    | cons a rest =>
      show withSide (resolveSide pbi tmap a) st.1 _ = st.1
      exact withSide_falsy (hath a (by rw [hids]; exact List.mem_cons_self a rest)) _ _
  · rw [if_neg hg]

theorem tovSection_qt {tmap : List (String × String)}
    {pbi : List (String × PMeta)} {period : Int} {tl ttl : String}
    {pl : Play} {sft : Option String} (st : QT × QP)
    (hsft : sideTruthy sft = false)
    (hath : ∀ aid ∈ pl.athlete_ids,
      sideTruthy (resolveSide pbi tmap aid) = false) :
    (tovSection tmap pbi period tl ttl pl sft st).1 = st.1 := by
  simp only [tovSection]
  by_cases hg : (pyInStr "turnover" ttl || pyInStr "turnover" tl ||
      pyInStr "offensive foul" tl) = true
  · rw [if_pos hg]
    cases hids : pl.athlete_ids with
    | nil =>
      show withSide sft st.1 _ = st.1
      exact withSide_falsy hsft _ _
    | cons a rest =>
      show withSide (resolveSide pbi tmap a) st.1 _ = st.1
      exact withSide_falsy (hath a (by rw [hids]; exact List.mem_cons_self a rest)) _ _
  · rw [if_neg hg]

theorem stlSection_qt {tmap : List (String × String)}
    {pbi : List (String × PMeta)} {period : Int} {tl : String}
    {pl : Play} (st : QT × QP)
    (hath : ∀ aid ∈ pl.athlete_ids,
      sideTruthy (resolveSide pbi tmap aid) = false) :
    (stlSection tmap pbi period tl pl st).1 = st.1 := by
  simp only [stlSection]
  by_cases hg : pyInStr "steals" tl = true ∧ pl.athlete_ids.length > 1
  · rw [if_pos hg]
    show withSide (resolveSide pbi tmap (pl.athlete_ids.getD 1 "")) st.1 _ =
      st.1
    exact withSide_falsy
      (hath (pl.athlete_ids.getD 1 "") (getD_one_mem hg.2)) _ _
  · rw [if_neg hg]

theorem blkSection_qt {tmap : List (String × String)}
    {pbi : List (String × PMeta)} {period : Int} {tl : String}
    {pl : Play} (st : QT × QP)
    (hath : ∀ aid ∈ pl.athlete_ids,
      sideTruthy (resolveSide pbi tmap aid) = false) :
    (blkSection tmap pbi period tl pl st).1 = st.1 := by
  simp only [blkSection]
  by_cases hg : pyInStr "blocks" tl = true ∧ pl.athlete_ids.length > 1
  · rw [if_pos hg]
    show withSide (resolveSide pbi tmap (pl.athlete_ids.getD 1 "")) st.1 _ =
      st.1
    exact withSide_falsy
      (hath (pl.athlete_ids.getD 1 "") (getD_one_mem hg.2)) _ _
  · rw [if_neg hg]

theorem fgSide_falsy {pbi : List (String × PMeta)}
    {tmap : List (String × String)} {a : String} {sft : Option String}
    (hsft : sideTruthy sft = false)
    (ha : sideTruthy (resolveSide pbi tmap a) = false) :
    sideTruthy (if a ≠ "" ∧ (lookupS pbi a).isSome then
      strOr ((lookupS pbi a).getD ⟨.null, none, none⟩).side
        (tguard tmap ((lookupS pbi a).getD ⟨.null, none, none⟩).team_id)
    else sft) = false := by
  split
  · simpa [resolveSide] using ha
  · exact hsft

theorem ftFgSection_qt {tmap : List (String × String)}
    {pbi : List (String × PMeta)} {period : Int} {tl ttl sl : String}
    {pl : Play} {sft : Option String} (st : QT × QP)
    (hsft : sideTruthy sft = false)
    (hath : ∀ aid ∈ pl.athlete_ids,
      sideTruthy (resolveSide pbi tmap aid) = false) :
    (ftFgSection tmap pbi period tl ttl sl pl sft st).1 = st.1 := by
  simp only [ftFgSection]
  split
  case isFalse => rfl
  case isTrue hsh =>
    split
    case isTrue hft =>
      split
      next => rfl
      next shooter_id rest heq =>
        exact withSide_falsy
          (hath shooter_id (by rw [heq]; exact List.mem_cons_self _ _)) _ _
    case isFalse hft =>
      cases hids : pl.athlete_ids with
      | nil =>
        split
        next hass => exact absurd hass (by simp)
        next => exact withSide_falsy hsft _ _
      | cons a rest =>
        split
        next hass =>
          exact (withSide_falsy (hath ((a :: rest).getD 1 "")
              (by rw [hids]; exact getD_one_mem hass.2.2)) _ _).trans
            (withSide_falsy (fgSide_falsy hsft (hath a
              (by rw [hids]; exact List.mem_cons_self _ _))) _ _)
        next =>
          exact withSide_falsy (fgSide_falsy hsft (hath a
            (by rw [hids]; exact List.mem_cons_self _ _))) _ _

/-- Whether a value is a string. -/
def isStrB : JValue → Bool
  | .str _ => true
  | _ => false

/-- Shape accepted where the script writes `(x or "").lower()`: a falsy
value is replaced by `""`, so `.lower()` succeeds exactly when the
value is falsy or already a string. -/
def StrOrFalsy (v : JValue) : Bool := !truthy v || isStrB v

theorem pyLowerE_pyOr_ok {v : JValue} (h : StrOrFalsy v = true) :
    ∃ s, pyLowerE (pyOr v (.str "")) = .ok s := by
  unfold pyOr
  by_cases ht : truthy v = true
  · rw [if_pos ht]
    simp only [StrOrFalsy, ht, Bool.not_true, Bool.false_or] at h
    cases v with
    | str s => exact ⟨strLower s, rfl⟩
    | null => simp [isStrB] at h
    | bool b => simp [isStrB] at h
    | int n => simp [isStrB] at h
    | arr xs => simp [isStrB] at h
    | obj kvs => simp [isStrB] at h
  · rw [if_neg ht]
    exact ⟨strLower "", rfl⟩

/-- A normalized shooting play (2-pt attempt) whose team id `"77"` is
absent from the competitor map and whose athlete `"999"` is absent
from the roster map. -/
def pl5 : Play :=
  { index := 0, period := some 1, clock := "", home_score := 0,
    away_score := 0, team_id := some "77", scoring_play := false,
    score_value := 0, text := .str "", athlete_ids := ["999"],
    play_type_id := .null, play_type_text := .str "",
    shooting_play := true, points_attempted := 2, short_desc := .str "" }

/-- The quarter-1 player entry the aggregator creates for `pl5`. -/
def ent5 : PEnt :=
  { player_id := "999", name := .null, team_id := none,
    side := none, stats := { emptyStats with fga := 1 } }

/-- Counterexample to C5 as stated: an event whose side is unresolvable
(team id `"77"` not in the competitor map, athlete `"999"` not in the
roster) still increments a player-level stat block — the field-goal
attempt is recorded under the athlete id with `side = None` — even
though no team-level block is touched. -/
theorem claim_C5_counterexample :
    sideTruthy (tguard [("1", "home")] pl5.team_id) = false ∧
    (∀ aid ∈ pl5.athlete_ids,
      sideTruthy (resolveSide [] [("1", "home")] aid) = false) ∧
    computeQuarterTotals [pl5] [("1", "home")] [] =
      .ok ([], [(1, [("999", ent5)])]) ∧
    ent5.stats = { emptyStats with fga := 1 } ∧ ent5.side = none :=
  ⟨by decide, by decide, by rfl, rfl, rfl⟩

/-- C5 (amended): an event whose side cannot be resolved — its team id
is absent from the competitor map and every actor's side is
unresolvable through the roster — contributes nothing to the
team-level totals and is processed without error (given the text
fields are strings or falsy); player-level stat blocks keyed by its
actors may still be incremented. -/
theorem claim_C5 {tmap : List (String × String)}
    {pbi : List (String × PMeta)} {st : QT × QP} {pl : Play}
    (hteam : sideTruthy (tguard tmap pl.team_id) = false)
    (hath : ∀ aid ∈ pl.athlete_ids,
      sideTruthy (resolveSide pbi tmap aid) = false)
    (htext : StrOrFalsy pl.text = true)
    (httext : StrOrFalsy pl.play_type_text = true)
    (hshort : StrOrFalsy pl.short_desc = true) :
    ∃ st2, aggStep tmap pbi st pl = .ok st2 ∧ st2.1 = st.1 := by
  cases hper : pl.period with
  | none =>
    refine ⟨st, ?_, rfl⟩
    simp only [aggStep, hper]
    rfl
  | some period =>
    obtain ⟨tl, htl⟩ := pyLowerE_pyOr_ok htext
    obtain ⟨ttl, httl⟩ := pyLowerE_pyOr_ok httext
    obtain ⟨sl, hsl⟩ := pyLowerE_pyOr_ok hshort
    refine ⟨blkSection tmap pbi period tl pl
        (stlSection tmap pbi period tl pl
          (tovSection tmap pbi period tl ttl pl (tguard tmap pl.team_id)
            (rebSection tmap pbi period ttl pl (tguard tmap pl.team_id)
              (ftFgSection tmap pbi period tl ttl sl pl
                (tguard tmap pl.team_id) st)))), ?_, ?_⟩
    · simp only [aggStep, hper, htl, httl, hsl, Bind.bind, Except.bind]
      rfl
    · rw [blkSection_qt _ hath, stlSection_qt _ hath,
        tovSection_qt _ hteam hath, rebSection_qt _ hteam hath,
        ftFgSection_qt _ hteam hath]

theorem claim_C5_witness :
    ∃ st2, aggStep [("1", "home")] [] (([] : QT), ([] : QP)) pl5 =
      .ok st2 ∧ st2.1 = (([] : QT), ([] : QP)).1 :=
  claim_C5 (by decide) (by decide) (by decide) (by decide) (by decide)

end DTGameReport
